import Mathlib

/-!
# Pattern Aggregation & Generalization Engine — verification

Shallow embedding of the pattern-aggregation core of the skill-refinement
scripts (`skill-refinement/scripts/aggregate_patterns.py`, together with the
data model of `skill-refinement/scripts/common/models.py` and the id
generator of `skill-refinement/scripts/common/persistence.py`).

Modelling conventions:

* Python strings are Lean `String`s; the Python operations used by the code
  (`in`, `split`, `strip`, `lower`, slicing) are embedded as executable
  functions on `String` / `List Char` below.
* The two durable documents (`aggregated-patterns.md`,
  `generalization-queue.md`) are line oriented: the code builds them from
  lists of lines joined with `"\n"`.  They are modelled as `List String`
  (the list of lines); `joinLines` recovers the raw text where the code
  performs raw-string searches.
* `datetime` values are carried as opaque `String`s (their `isoformat`
  rendering); `datetime.now()` becomes an explicit `now : String` argument.
* Python `float` scores are modelled as `ℚ`.
-/

namespace SkillRefine

/-- The ASCII whitespace characters stripped by Python's default
`str.strip` / `str.split`. -/
def isPySpace (c : Char) : Bool :=
  c == ' ' || c == '\t' || c == '\n' || c == '\x0b' || c == '\x0c' || c == '\r'

/-- `listStarts p l` : the character list `p` is a prefix of `l`
(Python `l.startswith(p)` at character level). -/
def listStarts : List Char → List Char → Bool
  | [], _ => true
  | _ :: _, [] => false
  | a :: p, b :: l => a == b && listStarts p l

/-- `occursL p l` : `p` occurs as a contiguous segment of `l`
(Python's substring test `p in l` at character level). -/
def occursL (p : List Char) : List Char → Bool
  | [] => listStarts p []
  | c :: l => listStarts p (c :: l) || occursL p l

/-- Python substring test `pat in s`. -/
def occursIn (pat s : String) : Bool := occursL pat.data s.data

/-- Left strip (Python `str.lstrip()` with default whitespace). -/
def pyLstripL (l : List Char) : List Char := l.dropWhile isPySpace

/-- Python `str.strip()` with default whitespace (ASCII model). -/
def pyStripL (l : List Char) : List Char :=
  ((l.dropWhile isPySpace).reverse.dropWhile isPySpace).reverse

/-- Python `str.strip()` on strings. -/
def pyStrip (s : String) : String := ⟨pyStripL s.data⟩

/-- Splitting a character list at every occurrence of the single
character `c` (Python `str.split(",")`-style: `n` separators yield
`n + 1` chunks, empty chunks included). -/
def splitCharL (c : Char) : List Char → List (List Char)
  | [] => [[]]
  | a :: l =>
    match splitCharL c l with
    | [] => [[]]
    | chunk :: rest => if a == c then [] :: chunk :: rest else (a :: chunk) :: rest

/-- Python `s.split(",")`. -/
def pySplitComma (s : String) : List String :=
  (splitCharL ',' s.data).map (fun l => ⟨l⟩)

/-- Python `", ".join(xs)` (and `"\n".join`, etc.): `List.intercalate` on
character lists, wrapped for strings. -/
def pyJoin (sep : String) (xs : List String) : String :=
  ⟨List.intercalate sep.data (xs.map String.data)⟩

/-- Join document lines back into the raw text (`"\n".join(lines)`). -/
def joinLines (lines : List String) : String := pyJoin "\n" lines

/-- Python whitespace-splitting `str.split()` (no argument): split on runs
of whitespace, dropping empty chunks. -/
def pyWords (s : String) : List String :=
  ((s.data.splitOnP isPySpace).map (fun l => (⟨l⟩ : String))).filter (fun w => w ≠ "")

/-- Python `s.startswith(pre)`. -/
def strStarts (pre s : String) : Bool := listStarts pre.data s.data

/-- Python `str.lower()` (ASCII model). -/
def pyLower (s : String) : String := ⟨s.data.map Char.toLower⟩

/-- Python slicing `s[:n]`. -/
def pyTake (n : Nat) (s : String) : String := ⟨s.data.take n⟩

section OccurrenceLemmas

theorem listStarts_iff (p l : List Char) :
    listStarts p l = true ↔ ∃ t, l = p ++ t := by
  induction p generalizing l with
  | nil => simp [listStarts]
  | cons a p ih =>
    cases l with
    | nil =>
      simp [listStarts]
    | cons b l =>
      simp only [listStarts, Bool.and_eq_true, beq_iff_eq, ih, List.cons_append,
        List.cons.injEq]
      constructor
      · rintro ⟨rfl, t, rfl⟩; exact ⟨t, rfl, rfl⟩
      · rintro ⟨t, rfl, rfl⟩; exact ⟨rfl, t, rfl⟩

theorem occursL_iff (p l : List Char) :
    occursL p l = true ↔ ∃ a b, l = a ++ p ++ b := by
  induction l with
  | nil =>
    simp only [occursL, listStarts_iff]
    constructor
    · rintro ⟨t, ht⟩
      exact ⟨[], t, by simpa using ht⟩
    · rintro ⟨a, b, h⟩
      rcases List.append_eq_nil.mp (List.append_eq_nil.mp h.symm).1 with ⟨rfl, rfl⟩
      exact ⟨b, by simpa using h⟩
  | cons c l ih =>
    simp only [occursL, Bool.or_eq_true, listStarts_iff, ih]
    constructor
    · rintro (⟨t, ht⟩ | ⟨a, b, rfl⟩)
      · exact ⟨[], t, by simpa using ht⟩
      · exact ⟨c :: a, b, rfl⟩
    · rintro ⟨a, b, h⟩
      cases a with
      | nil => exact Or.inl ⟨b, by simpa using h⟩
      | cons a' as =>
        right
        rw [List.cons_append, List.cons_append] at h
        injection h with h1 h2
        exact ⟨as, b, h2⟩

theorem occursIn_iff (pat s : String) :
    occursIn pat s = true ↔ ∃ a b, s.data = a ++ pat.data ++ b :=
  occursL_iff pat.data s.data

/-- Monotonicity: an occurrence of `p` yields an occurrence of any prefix
of `p`. -/
theorem occursL_of_take (p l : List Char) (k : ℕ) (h : occursL p l = true) :
    occursL (p.take k) l = true := by
  rcases (occursL_iff p l).mp h with ⟨a, b, rfl⟩
  refine (occursL_iff _ _).mpr ⟨a, p.drop k ++ b, ?_⟩
  rw [List.append_assoc, List.append_assoc, ← List.append_assoc (p.take k),
    List.take_append_drop]

/-- Every character of an occurring segment occurs in the host list. -/
theorem mem_of_occursL (p l : List Char) (h : occursL p l = true) :
    ∀ c ∈ p, c ∈ l := by
  rcases (occursL_iff p l).mp h with ⟨a, b, rfl⟩
  intro c hc
  simp [hc]

theorem occursL_append_left (p a b : List Char) (h : occursL p a = true) :
    occursL p (a ++ b) = true := by
  rcases (occursL_iff p a).mp h with ⟨x, y, rfl⟩
  exact (occursL_iff _ _).mpr ⟨x, y ++ b, by simp⟩

theorem occursL_append_right (p a b : List Char) (h : occursL p b = true) :
    occursL p (a ++ b) = true := by
  rcases (occursL_iff p b).mp h with ⟨x, y, rfl⟩
  exact (occursL_iff _ _).mpr ⟨a ++ x, y, by simp⟩

/-- Occurrence in a concatenation: inside the left part, inside the right
part, or spanning the boundary (a nonempty proper prefix of `p` ends `a`
and the matching remainder starts `b`). -/
theorem occursL_append_cases (p a b : List Char) (h : occursL p (a ++ b) = true) :
    occursL p a = true ∨ occursL p b = true ∨
      ∃ k, 0 < k ∧ k < p.length ∧ (∃ x, a = x ++ p.take k) ∧
        ∃ y, b = p.drop k ++ y := by
  induction a with
  | nil =>
    right; left; simpa using h
  | cons c a ih =>
    rw [List.cons_append, occursL, Bool.or_eq_true] at h
    rcases h with h | h
    · rcases (listStarts_iff _ _).mp h with ⟨t, ht⟩
      rw [← List.cons_append] at ht
      by_cases hlen : p.length ≤ (c :: a).length
      · left
        refine (occursL_iff p (c :: a)).mpr ⟨[], (c :: a).drop p.length, ?_⟩
        have h1 : (c :: a).take p.length = p := by
          have h2 := congrArg (List.take p.length) ht
          rwa [List.take_append_of_le_length hlen,
            List.take_append_of_le_length (le_refl _), List.take_length] at h2
        rw [List.nil_append]
        conv_lhs => rw [← List.take_append_drop p.length (c :: a)]
        rw [h1]
      · right; right
        push_neg at hlen
        refine ⟨(c :: a).length, by simp, hlen, ⟨[], ?_⟩, ⟨t, ?_⟩⟩
        · have h2 := congrArg (List.take (c :: a).length) ht
          rw [List.take_left, List.take_append_of_le_length (le_of_lt hlen)] at h2
          rw [List.nil_append]
          exact h2
        · have h3 := congrArg (List.drop (c :: a).length) ht
          rw [List.drop_left, List.drop_append_of_le_length (le_of_lt hlen)] at h3
          exact h3
    · rcases ih h with h' | h' | ⟨k, hk0, hkp, ⟨x, hx⟩, hy⟩
      · left
        rw [occursL, Bool.or_eq_true]; exact Or.inr h'
      · right; left; exact h'
      · right; right
        exact ⟨k, hk0, hkp, ⟨c :: x, by rw [hx, List.cons_append]⟩, hy⟩

theorem intercalate_nil_eq (s : List Char) :
    List.intercalate s ([] : List (List Char)) = [] := rfl

theorem intercalate_one (s l : List Char) : List.intercalate s [l] = l := by
  simp [List.intercalate, List.intersperse_singleton]

theorem intercalate_two (s a b : List Char) (t : List (List Char)) :
    List.intercalate s (a :: b :: t) = a ++ (s ++ List.intercalate s (b :: t)) := by
  simp [List.intercalate, List.intersperse_cons_cons]

theorem occursL_nil_false (p : List Char) (hne : p ≠ []) :
    occursL p [] = false := by
  cases p with
  | nil => exact absurd rfl hne
  | cons c cs => simp [occursL, listStarts]

/-- A nonempty pattern containing no newline occurs in joined lines only if
it occurs inside a single line. -/
theorem occursL_intercalate_newline (p : List Char) (ls : List (List Char))
    (hp : '\n' ∉ p) (hne : p ≠ [])
    (h : occursL p (List.intercalate ['\n'] ls) = true) :
    ∃ l ∈ ls, occursL p l = true := by
  induction ls with
  | nil =>
    rw [intercalate_nil_eq, occursL_nil_false p hne] at h
    exact absurd h (by simp)
  | cons l ls ih =>
    cases ls with
    | nil =>
      refine ⟨l, by simp, ?_⟩
      rwa [intercalate_one] at h
    | cons l' ls' =>
      rw [intercalate_two] at h
      rcases occursL_append_cases p l _ h with h1 | h1 | ⟨k, hk0, hkp, _, ⟨y, hy⟩⟩
      · exact ⟨l, by simp, h1⟩
      · rcases occursL_append_cases p ['\n'] _ h1 with h2 | h2 | ⟨k, hk0, hkp, ⟨x, hx⟩, _⟩
        · exfalso
          cases p with
          | nil => exact hne rfl
          | cons c cs =>
            have hcm : c ∈ ['\n'] := mem_of_occursL _ _ h2 c (by simp)
            simp only [List.mem_singleton] at hcm
            exact hp (by rw [← hcm]; exact List.mem_cons_self c cs)
        · rcases ih h2 with ⟨l0, hl0, ho⟩
          exact ⟨l0, List.mem_cons_of_mem l hl0, ho⟩
        · exfalso
          have hlx := congrArg List.length hx
          simp only [List.length_singleton, List.length_append, List.length_take] at hlx
          have hkmin : min k p.length = k := min_eq_left (le_of_lt hkp)
          rw [hkmin] at hlx
          have hx0 : x = [] := by
            cases x with
            | nil => rfl
            | cons d ds => exfalso; simp at hlx; omega
          subst hx0
          rw [List.nil_append] at hx
          have : '\n' ∈ p.take k := by rw [← hx]; simp
          exact hp (List.take_subset k p this)
      · exfalso
        have hdne : p.drop k ≠ [] := by
          intro hnil
          have := congrArg List.length hnil
          simp only [List.length_drop, List.length_nil] at this
          omega
        rcases hdrop : p.drop k with _ | ⟨c, cs⟩
        · exact absurd hdrop hdne
        · rw [hdrop, List.cons_append] at hy
          injection hy with hy1 hy2
          have : '\n' ∈ p.drop k := by rw [hdrop, ← hy1]; simp
          exact hp (List.drop_subset k p this)

end OccurrenceLemmas

-- ===========================================================================
-- Data model (`common/models.py`)
-- ===========================================================================

/-- `models.RefinementCategory` (enum). -/
inductive RefinementCategory
  | trigger
  | content
  | hook
  | tool
  | pattern
  | config
  | new
deriving DecidableEq

/-- The `.value` string of a `RefinementCategory` member. -/
def RefinementCategory.value : RefinementCategory → String
  | .trigger => "trigger"
  | .content => "content"
  | .hook => "hook"
  | .tool => "tool"
  | .pattern => "pattern"
  | .config => "config"
  | .new => "new"

/-- `models.PatternStatus` (enum). -/
inductive PatternStatus
  | tracking
  | ready
  | generalized
  | dismissed
deriving DecidableEq

/-- The `.value` string of a `PatternStatus` member. -/
def PatternStatus.value : PatternStatus → String
  | .tracking => "tracking"
  | .ready => "ready-for-generalization"
  | .generalized => "generalized"
  | .dismissed => "dismissed"

/-- `models.Refinement` — the fields read by the pattern aggregator
(`id`, `skill`, `category`, `target_section`, `expected_behavior`,
`actual_behavior`, `project`).  The remaining dataclass fields (override
type, patch details, confidence, status, timestamps, …) are never read by
`aggregate_patterns.py` and are omitted. -/
structure Refinement where
  id : String
  skill : String
  category : RefinementCategory
  target_section : String
  expected_behavior : String
  actual_behavior : String
  project : String
deriving DecidableEq

/-- `models.Pattern`.  `proposed_changes` (always `{}` in the aggregator)
and the unread `generalized_date`/`dismissed_reason` fields are omitted;
`count` is `Nat` (every value the aggregator stores or parses is a
nonnegative integer); the timestamps are carried as opaque isoformat
strings.  `notes` models the *dynamic* attribute set by `dismiss_pattern`:
the dataclass declares no `notes` (nor `category`) field, so
`hasattr(p, 'notes')` is false — `none` — until `dismiss_pattern` sets
it. -/
structure Pattern where
  id : String
  name : String
  description : String
  affected_skills : List String
  refinement_ids : List String
  projects : List String
  count : Nat
  status : PatternStatus
  first_seen : String
  last_seen : String
  notes : Option String := none
deriving DecidableEq

-- ===========================================================================
-- Similarity matcher (`aggregate_patterns.py`)
-- ===========================================================================

/-- `GENERALIZATION_THRESHOLD = 2`. -/
def GENERALIZATION_THRESHOLD : Nat := 2

/-- `SIMILARITY_THRESHOLD = 0.6` (the exact rational 6/10). -/
def SIMILARITY_THRESHOLD : ℚ := mkRat 6 10

/-- Kernel-computable addition on `ℚ` (Mathlib's field `+` on `ℚ` does not
reduce inside `decide`); `qAdd_eq` identifies it with `+`. -/
def qAdd (a b : ℚ) : ℚ := mkRat (a.num * b.den + b.num * a.den) (a.den * b.den)

/-- Kernel-computable multiplication on `ℚ`; `qMul_eq` identifies it with
`*`. -/
def qMul (a b : ℚ) : ℚ := mkRat (a.num * b.num) (a.den * b.den)

theorem qAdd_eq (a b : ℚ) : qAdd a b = a + b := by
  unfold qAdd
  rw [Rat.mkRat_eq_div]
  have ha : (a.den : ℚ) ≠ 0 := by exact_mod_cast a.den_nz
  have hb : (b.den : ℚ) ≠ 0 := by exact_mod_cast b.den_nz
  conv_rhs => rw [← Rat.num_div_den a, ← Rat.num_div_den b]
  push_cast
  field_simp

theorem qMul_eq (a b : ℚ) : qMul a b = a * b := by
  unfold qMul
  rw [Rat.mkRat_eq_div]
  have ha : (a.den : ℚ) ≠ 0 := by exact_mod_cast a.den_nz
  have hb : (b.den : ℚ) ≠ 0 := by exact_mod_cast b.den_nz
  conv_rhs => rw [← Rat.num_div_den a, ← Rat.num_div_den b]
  push_cast
  field_simp

/-- Word set of a Python string: `set(s.lower().split())` (ASCII lowering
model). -/
def wordSet (s : String) : Finset String := (pyWords (pyLower s)).toFinset

/-- The category, if any, recorded on a Pattern.  The `Pattern` dataclass
declares no `category` attribute and no code path ever assigns one, so
`hasattr(pattern, 'category')` in `_calculate_similarity` is always
`False`: no Pattern records a category. -/
def recordedCategory (_p : Pattern) : Option String := none

/-- `PatternAggregator._calculate_similarity`: additive score, capped at
1.0.  The category branch is guarded by the always-false
`hasattr(pattern, 'category')` (see `recordedCategory`).  The keyword
branch adds `0.2 * overlap` only when the word sets intersect (when they
do not, the skipped term is `0` anyway).  The float literals 0.3 / 0.2 /
0.6 are modelled as the exact rationals they denote, written through the
kernel-computable `qAdd` / `qMul` / `mkRat` (equal to `ℚ`'s `+`, `*`, `/`
by `qAdd_eq`, `qMul_eq`, `Rat.mkRat_eq_div`). -/
def calculate_similarity (r : Refinement) (p : Pattern) : ℚ :=
  let score : ℚ := 0
  let score := if r.skill ∈ p.affected_skills then qAdd score (mkRat 3 10) else score
  let score :=
    if r.target_section ≠ "" ∧ occursIn r.target_section p.description then
      qAdd score (mkRat 3 10)
    else score
  let score :=
    match recordedCategory p with
    | some c => if r.category.value = c then qAdd score (mkRat 2 10) else score
    | none => score
  let ref_words := wordSet r.expected_behavior ∪ wordSet r.actual_behavior
  let pattern_words := wordSet p.description
  let score :=
    if (ref_words ∩ pattern_words).Nonempty then
      qAdd score (qMul (mkRat 2 10)
        (mkRat ((ref_words ∩ pattern_words).card : Int)
          (max (max ref_words.card pattern_words.card) 1)))
    else score
  min score 1

/-- The §4.1 similarity scoring as the specification words it: the sum of
the four additive components — skill membership (+0.3), non-empty target
section occurring in the description (+0.3), category matching a category
recorded on the Pattern (+0.2), and 0.2 times the token-overlap ratio —
capped at 1.0. -/
def specSimilarity (r : Refinement) (p : Pattern) : ℚ :=
  let skillBonus : ℚ := if r.skill ∈ p.affected_skills then 3 / 10 else 0
  let sectionBonus : ℚ :=
    if r.target_section ≠ "" ∧ occursIn r.target_section p.description then 3 / 10 else 0
  let categoryBonus : ℚ :=
    match recordedCategory p with
    | some c => if r.category.value = c then 2 / 10 else 0
    | none => 0
  let ref_words := wordSet r.expected_behavior ∪ wordSet r.actual_behavior
  let pattern_words := wordSet p.description
  let overlapBonus : ℚ := 2 / 10 * (((ref_words ∩ pattern_words).card : ℚ) /
    ((max (max ref_words.card pattern_words.card) 1 : ℕ) : ℚ))
  min (skillBonus + sectionBonus + categoryBonus + overlapBonus) 1

/-- `PatternAggregator._find_matching_pattern`.  The loop skips terminal
patterns; its first branch (target section occurs in the description)
computes the same score as the fallthrough content branch, and both return
the pattern exactly when the score reaches `SIMILARITY_THRESHOLD`. -/
def find_matching_pattern (r : Refinement) : List Pattern → Option Pattern
  | [] => none
  | p :: rest =>
    if p.status = PatternStatus.generalized ∨ p.status = PatternStatus.dismissed then
      find_matching_pattern r rest
    else if occursIn r.target_section p.description ∧
        SIMILARITY_THRESHOLD ≤ calculate_similarity r p then
      some p
    else if SIMILARITY_THRESHOLD ≤ calculate_similarity r p then
      some p
    else find_matching_pattern r rest

/-- Position of the matched pattern in the store list (the Python function
returns the mutable object; the index identifies it for the functional
in-place update). -/
def findMatchIdx (r : Refinement) : List Pattern → Option Nat
  | [] => none
  | p :: rest =>
    if p.status = PatternStatus.generalized ∨ p.status = PatternStatus.dismissed then
      (findMatchIdx r rest).map (· + 1)
    else if occursIn r.target_section p.description ∧
        SIMILARITY_THRESHOLD ≤ calculate_similarity r p then
      some 0
    else if SIMILARITY_THRESHOLD ≤ calculate_similarity r p then
      some 0
    else (findMatchIdx r rest).map (· + 1)

/-- The §4.1 contract for a single pattern: non-terminal and scoring at or
above the similarity threshold. -/
def matchCandidate (r : Refinement) (p : Pattern) : Bool :=
  !(p.status == PatternStatus.generalized || p.status == PatternStatus.dismissed) &&
    decide (SIMILARITY_THRESHOLD ≤ calculate_similarity r p)

/-- C5: the implemented similarity score coincides with the four-component
additive formula of the specification — +0.3 for a known skill, +0.3 for a
non-empty target section occurring as a substring of the description, +0.2
for a category match against a category recorded on the Pattern (no
Pattern ever records one, so this component is always 0), plus 0.2 times
the token-overlap ratio — capped at 1.0. -/
theorem similarity_matches_spec (r : Refinement) (p : Pattern) :
    calculate_similarity r p = specSimilarity r p := by
  unfold calculate_similarity specSimilarity recordedCategory
  simp only [qAdd_eq, qMul_eq, Rat.mkRat_eq_div]
  push_cast
  by_cases hne : ((wordSet r.expected_behavior ∪ wordSet r.actual_behavior) ∩
      wordSet p.description).Nonempty
  · simp only [hne, if_true]
    split_ifs <;> ring_nf
  · simp only [hne, if_false]
    rw [Finset.not_nonempty_iff_eq_empty] at hne
    rw [hne]
    simp only [Finset.card_empty, Nat.cast_zero, zero_div, mul_zero]
    split_ifs <;> ring_nf

/-- C6: the matcher considers only patterns that are not GENERALIZED or
DISMISSED and returns the *first* pattern in store order whose similarity
score is at or above 0.6 (`List.find?`), independently of whether a later
pattern scores higher; when no non-terminal pattern reaches the threshold
it returns `none`. -/
theorem find_matching_eq_first (r : Refinement) (ps : List Pattern) :
    find_matching_pattern r ps = ps.find? (matchCandidate r) := by
  induction ps with
  | nil => rfl
  | cons p rest ih =>
    rw [find_matching_pattern, List.find?]
    by_cases hterm : p.status = PatternStatus.generalized ∨ p.status = PatternStatus.dismissed
    · have hcand : matchCandidate r p = false := by
        unfold matchCandidate
        rcases hterm with h | h <;> simp [h]
      rw [if_pos hterm, hcand, ih]
    · have hstat : (p.status == PatternStatus.generalized ||
          p.status == PatternStatus.dismissed) = false := by
        rcases not_or.mp hterm with ⟨h1, h2⟩
        simp [h1, h2]
      by_cases hsc : SIMILARITY_THRESHOLD ≤ calculate_similarity r p
      · have hcand : matchCandidate r p = true := by
        -- placeholder
          unfold matchCandidate
          rw [hstat]
          simp [hsc]
        rw [if_neg hterm, hcand]
        by_cases hocc : occursIn r.target_section p.description ∧
            SIMILARITY_THRESHOLD ≤ calculate_similarity r p
        · rw [if_pos hocc]
        · rw [if_neg hocc, if_pos hsc]
      · have hcand : matchCandidate r p = false := by
          unfold matchCandidate
          rw [hstat]
          simp [hsc]
        have hocc : ¬ (occursIn r.target_section p.description ∧
            SIMILARITY_THRESHOLD ≤ calculate_similarity r p) := fun h => hsc h.2
        rw [if_neg hterm, if_neg hocc, if_neg hsc, hcand, ih]

-- ===========================================================================
-- Pattern CRUD (`aggregate_patterns.py`)
-- ===========================================================================

/-- Python `s.replace(old, new)` for single-character arguments. -/
def replaceChar (old new : Char) (s : String) : String :=
  ⟨s.data.map (fun c => if c = old then new else c)⟩

/-- Characters kept by `re.sub(r"[^a-z0-9-]", "", name)`. -/
def slugKeep (c : Char) : Bool :=
  ('a' ≤ c && c ≤ 'z') || ('0' ≤ c && c ≤ '9') || c == '-'

/-- `re.sub(r"-+", "-", s)`: collapse every run of dashes to one dash. -/
def collapseDashAux : Bool → List Char → List Char
  | _, [] => []
  | prevDash, c :: rest =>
    if c = '-' then
      if prevDash then collapseDashAux true rest
      else '-' :: collapseDashAux true rest
    else c :: collapseDashAux false rest

/-- `s.strip("-")`. -/
def stripDashes (l : List Char) : List Char :=
  ((l.dropWhile (fun c => c == '-')).reverse.dropWhile (fun c => c == '-')).reverse

/-- `PatternAggregator._generate_pattern_name`: category value, up to two
words of the slash/dash-split target section, up to three words of the
expected behaviour longer than three characters; joined with dashes,
lowered, slug-filtered, dash-collapsed and dash-stripped; falling back to
`pattern-{skill}` when empty. -/
def generate_pattern_name (r : Refinement) : String :=
  let words : List String :=
    [r.category.value]
    ++ (if r.target_section ≠ "" then
          (pyWords (replaceChar '-' ' ' (replaceChar '/' ' ' r.target_section))).take 2
        else [])
    ++ ((pyWords r.expected_behavior).filter (fun w => 3 < w.length)).take 3
  let joined := pyLower (pyJoin "-" (words.take 5))
  let filtered : List Char := joined.data.filter slugKeep
  let name : String := ⟨stripDashes (collapseDashAux false filtered)⟩
  if name ≠ "" then name else "pattern-" ++ r.skill

/-- Structural helper for decimal rendering (`fuel` bounds the number of
divisions; `n + 1` always suffices). -/
def decDigitsAux : Nat → Nat → List Char
  | 0, _ => []
  | fuel + 1, n =>
    if n < 10 then [Char.ofNat ('0'.toNat + n)]
    else decDigitsAux fuel (n / 10) ++ [Char.ofNat ('0'.toNat + n % 10)]

/-- Decimal digits of a natural number (the rendering of Python `str` /
`f"{n}"` on a nonnegative int). -/
def decDigits (n : Nat) : List Char := decDigitsAux (n + 1) n

/-- Python `str(n)` for a nonnegative int. -/
def natToDec (n : Nat) : String := ⟨decDigits n⟩

/-- Python `f"{n:03d}"` for a nonnegative int. -/
def pad3 (n : Nat) : String :=
  ⟨List.replicate (3 - (decDigits n).length) '0' ++ decDigits n⟩

/-- Value of a digit string. -/
def digitsToNat (ds : List Char) : Nat :=
  ds.foldl (fun n c => 10 * n + (c.toNat - '0'.toNat)) 0

/-- The number matched by `PATTERN-(\d+)` against an id of that shape. -/
def patternIdNum (s : String) : Option Nat :=
  if listStarts "PATTERN-".data s.data then
    match (s.data.drop 8).takeWhile Char.isDigit with
    | [] => none
    | ds => some (digitsToNat ds)
  else none

/-- `persistence.get_pattern_id`: the source scans the saved patterns
document for every `PATTERN-(\d+)` occurrence and returns the maximum
plus one, zero-padded to (at least) three digits; with no match it returns
`PATTERN-001`.  Over a store whose free-text fields contain no
`PATTERN-<digits>` text, those regex matches are exactly the stored ids,
which is how the scan is modelled. -/
def get_pattern_id (patterns : List Pattern) : String :=
  let nums := patterns.filterMap (fun p => patternIdNum p.id)
  match nums with
  | [] => "PATTERN-001"
  | _ => "PATTERN-" ++ pad3 (nums.foldl max 0 + 1)

/-- `PatternAggregator._create_pattern` (the id generation happens at the
call through `get_pattern_id`). -/
def create_pattern (pid : String) (r : Refinement) (now : String) : Pattern :=
  { id := pid
    name := generate_pattern_name r
    description := r.target_section ++ ": " ++ pyTake 100 r.expected_behavior
    affected_skills := [r.skill]
    refinement_ids := [r.id]
    projects := if r.project ≠ "" then [r.project] else []
    count := 1
    status := PatternStatus.tracking
    first_seen := now
    last_seen := now
    notes := none }

/-- `PatternAggregator._update_pattern`: unconditional count increment;
refinement id, skill and (non-empty) project appended only when new;
last-seen bumped. -/
def update_pattern (p : Pattern) (r : Refinement) (now : String) : Pattern :=
  { p with
    count := p.count + 1
    refinement_ids :=
      if r.id ∈ p.refinement_ids then p.refinement_ids
      else p.refinement_ids ++ [r.id]
    affected_skills :=
      if r.skill ∈ p.affected_skills then p.affected_skills
      else p.affected_skills ++ [r.skill]
    projects :=
      if r.project ≠ "" ∧ r.project ∉ p.projects then p.projects ++ [r.project]
      else p.projects
    last_seen := now }

-- ===========================================================================
-- Generalization queue (`aggregate_patterns.py` + the template of
-- `common/persistence.py`)
-- ===========================================================================

/-- Lines of `_get_generalization_queue_template` above the review
header. -/
def qHead : List String :=
  ["# Generalization Queue",
   "",
   "> Refinements ready for user-scope skill updates",
   "> Review and apply with: /apply-generalization [PATTERN-ID]",
   ""]

/-- The review-section header targeted by queue insertion. -/
def qReadyHeaderLine : String := "## Ready for Review"

/-- Lines of `_get_generalization_queue_template` below the review
header. -/
def qTail : List String :=
  ["<!-- Patterns ready for generalization -->",
   "",
   "---",
   "",
   "## Pending More Data",
   "",
   "<!-- Patterns with count = 1, awaiting second occurrence -->",
   ""]

/-- `persistence._get_generalization_queue_template`, split into lines.
`ensure_user_refinements_dir` (run by the aggregator constructor) writes
this template whenever the queue file is missing, so every queue the
aggregator reads starts from it. -/
def queueTemplate : List String := qHead ++ [qReadyHeaderLine, ""] ++ qTail

/-- `PatternAggregator._format_queue_entry` as the lines its f-string
contributes to the document (the final blank line of the `"""..."""`
string merges with whatever follows). -/
def format_queue_entry (p : Pattern) : List String :=
  ["### " ++ p.id ++ ": " ++ p.name,
   "- **Priority:** " ++ (if 3 ≤ p.count then "High" else "Medium") ++
     " (" ++ natToDec p.count ++ " occurrences)",
   "- **Confidence:** " ++ (if 3 ≤ p.count then "High" else "Medium") ++
     " (consistent pattern)",
   "- **Breaking Changes:** None (additive)",
   "",
   "**Skills to Update:**"]
  ++ (if p.affected_skills.isEmpty then [""]
      else p.affected_skills.map (fun s => "- " ++ s))
  ++ ["", "**To Apply:**", "```bash", "/apply-generalization " ++ p.id, "```",
      "", "---", ""]

/-- Python `lstrip()` acting on the line model: leading all-whitespace
lines disappear (their newlines are whitespace too) and the first
remaining line loses its leading whitespace. -/
def lstripLines : List String → List String
  | [] => []
  | l :: ls =>
    if l.data.all isPySpace then lstripLines ls
    else ⟨pyLstripL l.data⟩ :: ls

/-- `PatternAggregator._add_to_generalization_queue` on the line model.
The queue file always exists (the constructor ran
`ensure_user_refinements_dir`), so the `_create_queue_header` fallback is
dead.  The dedup check is Python's raw substring test
`pattern.id in content`; the insertion splits the raw text at the first
occurrence of `"## Ready for Review"` (a full line in every document the
system writes) and left-strips the remainder. -/
def add_to_generalization_queue (q : List String) (p : Pattern) : List String :=
  if occursIn p.id (joinLines q) then q
  else
    match q.findIdx? (fun l => occursIn qReadyHeaderLine l) with
    | some i =>
      q.take i ++ [qReadyHeaderLine, ""] ++ format_queue_entry p ++
        lstripLines (q.drop (i + 1))
    | none => q ++ [qReadyHeaderLine, ""] ++ format_queue_entry p ++ [""]

/-- A line starting an entry block for `pid`: the removal regex
`### {pid}: .+?(?=### PATTERN-|\Z)` anchors at `"### {pid}: "` and needs
at least one further character. -/
def entryHeadLine (pid l : String) : Bool :=
  strStarts ("### " ++ pid ++ ": ") l && (("### " ++ pid ++ ": ").length < l.length)

/-- A line at which the lazy removal match stops (the lookahead
`### PATTERN-`). -/
def boundaryLine (l : String) : Bool := strStarts "### PATTERN-" l

/-- The global `re.sub` of `_remove_from_queue` on the line model: every
block from a `### {pid}: ` header up to (but excluding) the next
`### PATTERN-` header — or the end of the document — is deleted. -/
def removeScan (pid : String) : Bool → List String → List String
  | _, [] => []
  | true, l :: ls =>
    if boundaryLine l then
      if entryHeadLine pid l then removeScan pid true ls
      else l :: removeScan pid false ls
    else removeScan pid true ls
  | false, l :: ls =>
    if entryHeadLine pid l then removeScan pid true ls
    else l :: removeScan pid false ls

/-- `PatternAggregator._remove_from_queue`. -/
def remove_from_queue (q : List String) (pid : String) : List String :=
  removeScan pid false q

-- ===========================================================================
-- Lifecycle controller (`aggregate_patterns.py`)
-- ===========================================================================

/-- The in-memory system state: the parsed pattern store plus the
generalization-queue document (as lines).  The Python operations reload
and re-save these documents around the logic modelled here; persistence
round-tripping is analysed separately via `save_patterns` /
`load_patterns`. -/
structure AggState where
  patterns : List Pattern
  queue : List String
deriving DecidableEq

/-- Fresh stores: no parsed patterns (the patterns-file template contains
none) and the queue template. -/
def initState : AggState := { patterns := [], queue := queueTemplate }

/-- An inert placeholder for the (never taken) out-of-range list access. -/
def emptyPattern : Pattern :=
  { id := "", name := "", description := "", affected_skills := [],
    refinement_ids := [], projects := [], count := 0,
    status := PatternStatus.tracking, first_seen := "", last_seen := "",
    notes := none }

/-- The threshold block of `process_new_refinement`: when the count has
reached `GENERALIZATION_THRESHOLD` and the pattern is not GENERALIZED, set
READY and enqueue. -/
def thresholdPromote (p : Pattern) (q : List String) : Pattern × List String :=
  if GENERALIZATION_THRESHOLD ≤ p.count ∧ p.status ≠ PatternStatus.generalized then
    let p' := { p with status := PatternStatus.ready }
    (p', add_to_generalization_queue q p')
  else (p, q)

/-- `PatternAggregator.process_new_refinement`: match-or-create, threshold
check, persist; returns the new state and the resulting pattern. -/
def process_new_refinement (st : AggState) (r : Refinement) (now : String) :
    AggState × Pattern :=
  match findMatchIdx r st.patterns with
  | some i =>
    let p := update_pattern (st.patterns.getD i emptyPattern) r now
    let pq := thresholdPromote p st.queue
    ({ patterns := st.patterns.set i pq.1, queue := pq.2 }, pq.1)
  | none =>
    let p := create_pattern (get_pattern_id st.patterns) r now
    let pq := thresholdPromote p st.queue
    ({ patterns := st.patterns ++ [pq.1], queue := pq.2 }, pq.1)

/-- One iteration of the `check_all_patterns` loop: promote (and enqueue)
a pattern at threshold whose status is none of READY / GENERALIZED /
DISMISSED; demote a READY pattern whose count dropped below threshold. -/
def checkOne (p : Pattern) (q : List String) : Pattern × List String × Bool :=
  if GENERALIZATION_THRESHOLD ≤ p.count then
    if p.status ≠ PatternStatus.ready ∧ p.status ≠ PatternStatus.generalized ∧
        p.status ≠ PatternStatus.dismissed then
      let p' := { p with status := PatternStatus.ready }
      (p', add_to_generalization_queue q p', true)
    else (p, q, false)
  else if p.status = PatternStatus.ready then
    ({ p with status := PatternStatus.tracking }, q, false)
  else (p, q, false)

/-- The `check_all_patterns` loop over the whole store, threading the
queue document and collecting the newly promoted patterns. -/
def checkAllAux (q : List String) : List Pattern → List Pattern × List String × List Pattern
  | [] => ([], q, [])
  | p :: rest =>
    let r1 := checkOne p q
    let r2 := checkAllAux r1.2.1 rest
    (r1.1 :: r2.1, r2.2.1, (if r1.2.2 then [r1.1] else []) ++ r2.2.2)

/-- `PatternAggregator.check_all_patterns`: returns the updated state and
the list of patterns newly promoted to READY. -/
def check_all_patterns (st : AggState) : AggState × List Pattern :=
  let r := checkAllAux st.queue st.patterns
  ({ patterns := r.1, queue := r.2.1 }, r.2.2)

/-- The `mark_generalized` loop: set the *first* pattern with the given id
to GENERALIZED (the loop returns inside its body). -/
def markGenAux (pid : String) : List Pattern → Option (List Pattern)
  | [] => none
  | p :: rest =>
    if p.id = pid then some ({ p with status := PatternStatus.generalized } :: rest)
    else (markGenAux pid rest).map (p :: ·)

/-- `PatternAggregator.mark_generalized`: on success persist and drop the
queue entry, returning `true`; `false` (nothing written) when the id is
unknown. -/
def mark_generalized (st : AggState) (pid : String) : AggState × Bool :=
  match markGenAux pid st.patterns with
  | some ps => ({ patterns := ps, queue := remove_from_queue st.queue pid }, true)
  | none => (st, false)

/-- The `dismiss_pattern` loop: set the first matching pattern to
DISMISSED and append the reason to the dynamic `notes` attribute
(`hasattr`-guarded: created as `""` on first use). -/
def dismissAux (pid reason : String) : List Pattern → Option (List Pattern)
  | [] => none
  | p :: rest =>
    if p.id = pid then
      some ({ p with
        status := PatternStatus.dismissed
        notes := some ((p.notes.getD "") ++ "\nDismissed: " ++ reason) } :: rest)
    else (dismissAux pid reason rest).map (p :: ·)

/-- `PatternAggregator.dismiss_pattern`. -/
def dismiss_pattern (st : AggState) (pid : String) (reason : String) :
    AggState × Bool :=
  match dismissAux pid reason st.patterns with
  | some ps => ({ patterns := ps, queue := remove_from_queue st.queue pid }, true)
  | none => (st, false)

-- ===========================================================================
-- C10, C8, C7
-- ===========================================================================

/-- C10: `_update_pattern` increments `count` unconditionally while
appending the refinement id only when it is not already recorded, so
re-processing a refinement whose id the pattern already holds grows
`count` without growing `refinement_ids`. -/
theorem update_count_vs_ids (p : Pattern) (r : Refinement) (now : String) :
    (update_pattern p r now).count = p.count + 1 ∧
    (r.id ∈ p.refinement_ids →
      (update_pattern p r now).refinement_ids = p.refinement_ids) ∧
    (r.id ∉ p.refinement_ids →
      (update_pattern p r now).refinement_ids = p.refinement_ids ++ [r.id]) := by
  refine ⟨rfl, fun h => ?_, fun h => ?_⟩ <;> simp [update_pattern, h]

/-- Sample refinement used by concrete witnesses. -/
def wRef : Refinement :=
  { id := "R1", skill := "s1", category := RefinementCategory.hook,
    target_section := "hooks/a", expected_behavior := "allow tests",
    actual_behavior := "blocks tests", project := "proj" }

/-- Sample pattern (as created from `wRef`). -/
def wPat : Pattern := create_pattern "PATTERN-001" wRef "t0"

theorem update_count_vs_ids_witness :
    (update_pattern wPat wRef "t1").count = wPat.count + 1 ∧
    (update_pattern wPat wRef "t1").refinement_ids = wPat.refinement_ids :=
  ⟨(update_count_vs_ids wPat wRef "t1").1,
   (update_count_vs_ids wPat wRef "t1").2.1 (by decide)⟩

theorem markGenAux_eq_none (pid : String) (ps : List Pattern)
    (h : ∀ p ∈ ps, p.id ≠ pid) : markGenAux pid ps = none := by
  induction ps with
  | nil => rfl
  | cons p rest ih =>
    rw [markGenAux, if_neg (h p (by simp))]
    rw [ih (fun p' hp' => h p' (by simp [hp']))]
    rfl

theorem dismissAux_eq_none (pid reason : String) (ps : List Pattern)
    (h : ∀ p ∈ ps, p.id ≠ pid) : dismissAux pid reason ps = none := by
  induction ps with
  | nil => rfl
  | cons p rest ih =>
    rw [dismissAux, if_neg (h p (by simp))]
    rw [ih (fun p' hp' => h p' (by simp [hp']))]
    rfl

/-- C8: for an id no stored pattern carries, `mark_generalized` and
`dismiss_pattern` return the failure flag `false` and leave the pattern
store and the queue document untouched. -/
theorem unknown_id_noop (st : AggState) (pid reason : String)
    (h : ∀ p ∈ st.patterns, p.id ≠ pid) :
    mark_generalized st pid = (st, false) ∧
    dismiss_pattern st pid reason = (st, false) := by
  constructor
  · rw [mark_generalized, markGenAux_eq_none pid st.patterns h]
  · rw [dismiss_pattern, dismissAux_eq_none pid reason st.patterns h]

theorem unknown_id_noop_witness :
    mark_generalized initState "PATTERN-999" = (initState, false) ∧
    dismiss_pattern initState "PATTERN-999" "not needed" = (initState, false) :=
  unknown_id_noop initState "PATTERN-999" "not needed"
    (by intro p hp; exact absurd hp (List.not_mem_nil p))

/-- A pattern on which the `check_all_patterns` loop body is a no-op. -/
def stablePat (p : Pattern) : Prop :=
  (GENERALIZATION_THRESHOLD ≤ p.count →
    (p.status = PatternStatus.ready ∨ p.status = PatternStatus.generalized ∨
      p.status = PatternStatus.dismissed)) ∧
  (p.count < GENERALIZATION_THRESHOLD → p.status ≠ PatternStatus.ready)

theorem checkOne_stable (p : Pattern) (q : List String) :
    stablePat (checkOne p q).1 := by
  unfold checkOne
  split_ifs with h1 h2 h3
  · exact ⟨fun _ => Or.inl rfl, fun hc => absurd h1 (not_le.mpr hc)⟩
  · refine ⟨fun _ => ?_, fun hc => absurd h1 (not_le.mpr hc)⟩
    by_contra hno
    push_neg at hno
    exact h2 ⟨hno.1, hno.2.1, hno.2.2⟩
  · exact ⟨fun hg => absurd hg h1, fun _ => by simp⟩
  · exact ⟨fun hg => absurd hg h1, fun _ => h3⟩

theorem checkOne_of_stable (p : Pattern) (q : List String) (h : stablePat p) :
    checkOne p q = (p, q, false) := by
  unfold checkOne
  split_ifs with h1 h2 h3
  · rcases h.1 h1 with hs | hs | hs <;> simp [hs] at h2
  · rfl
  · exact absurd h3 (h.2 (not_le.mp h1))
  · rfl

theorem checkAllAux_fst_stable (q : List String) (ps : List Pattern) :
    ∀ p' ∈ (checkAllAux q ps).1, stablePat p' := by
  induction ps generalizing q with
  | nil => intro p' hp'; exact absurd hp' (List.not_mem_nil p')
  | cons p rest ih =>
    intro p' hp'
    rw [checkAllAux] at hp'
    rcases List.mem_cons.mp hp' with h | h
    · rw [h]; exact checkOne_stable p q
    · exact ih _ p' h

theorem checkAllAux_of_stable (q : List String) (ps : List Pattern)
    (h : ∀ p ∈ ps, stablePat p) : checkAllAux q ps = (ps, q, []) := by
  induction ps generalizing q with
  | nil => rfl
  | cons p rest ih =>
    rw [checkAllAux, checkOne_of_stable p q (h p (by simp))]
    rw [ih q (fun p' hp' => h p' (by simp [hp']))]
    rfl

/-- C7: `check_all_patterns` is idempotent — running it a second time with
no intervening refinements leaves every pattern (in particular every
status) and the queue document unchanged, and promotes nothing new. -/
theorem check_all_idem (st : AggState) :
    check_all_patterns (check_all_patterns st).1 = ((check_all_patterns st).1, []) := by
  unfold check_all_patterns
  have h := checkAllAux_of_stable (checkAllAux st.queue st.patterns).2.1
    (checkAllAux st.queue st.patterns).1
    (checkAllAux_fst_stable st.queue st.patterns)
  simp only [h]

-- ===========================================================================
-- Reachability: traces of lifecycle operations from fresh stores
-- ===========================================================================

/-- Traces of lifecycle operations starting from fresh stores; the second
component records the ids of the refinements processed so far. -/
inductive ReachT : AggState → List String → Prop
  | init : ReachT initState []
  | pnew {st ids} (r : Refinement) (now : String) (h : ReachT st ids) :
      ReachT (process_new_refinement st r now).1 (ids ++ [r.id])
  | call {st ids} (h : ReachT st ids) : ReachT (check_all_patterns st).1 ids
  | mgen {st ids} (pid : String) (h : ReachT st ids) :
      ReachT (mark_generalized st pid).1 ids
  | dism {st ids} (pid reason : String) (h : ReachT st ids) :
      ReachT (dismiss_pattern st pid reason).1 ids

/-- A state reachable by some trace of lifecycle operations. -/
def Reachable (st : AggState) : Prop := ∃ ids, ReachT st ids

/-- A single lifecycle operation. -/
inductive StepR : AggState → AggState → Prop
  | pnew (st) (r : Refinement) (now : String) :
      StepR st (process_new_refinement st r now).1
  | call (st) : StepR st (check_all_patterns st).1
  | mgen (st) (pid : String) : StepR st (mark_generalized st pid).1
  | dism (st) (pid reason : String) : StepR st (dismiss_pattern st pid reason).1

-- ===========================================================================
-- Structural lemmas about the lifecycle operations
-- ===========================================================================

theorem findMatchIdx_some_lt (r : Refinement) (ps : List Pattern) (i : ℕ)
    (h : findMatchIdx r ps = some i) : i < ps.length := by
  induction ps generalizing i with
  | nil => simp [findMatchIdx] at h
  | cons p rest ih =>
    rw [findMatchIdx] at h
    split_ifs at h
    · rcases Option.map_eq_some'.mp h with ⟨j, hj, rfl⟩
      exact Nat.succ_lt_succ (ih j hj)
    · rw [Option.some.injEq] at h
      rw [← h]
      simp
    · rw [Option.some.injEq] at h
      rw [← h]
      simp
    · rcases Option.map_eq_some'.mp h with ⟨j, hj, rfl⟩
      exact Nat.succ_lt_succ (ih j hj)

theorem findMatchIdx_not_terminal (r : Refinement) (ps : List Pattern) (i : ℕ)
    (h : findMatchIdx r ps = some i) (hi : i < ps.length) :
    ¬ (ps[i].status = PatternStatus.generalized ∨
       ps[i].status = PatternStatus.dismissed) := by
  induction ps generalizing i with
  | nil => simp [findMatchIdx] at h
  | cons p rest ih =>
    rw [findMatchIdx] at h
    split_ifs at h with h1 h2 h3
    · rcases Option.map_eq_some'.mp h with ⟨j, hj, rfl⟩
      have hj' := findMatchIdx_some_lt r rest j hj
      simpa using ih j hj hj'
    · rw [Option.some.injEq] at h
      subst h
      simpa using h1
    · rw [Option.some.injEq] at h
      subst h
      simpa using h1
    · rcases Option.map_eq_some'.mp h with ⟨j, hj, rfl⟩
      have hj' := findMatchIdx_some_lt r rest j hj
      simpa using ih j hj hj'

/-- The pattern component of a `check_all_patterns` loop iteration does
not depend on the threaded queue document. -/
def checkOnePat (p : Pattern) : Pattern :=
  if GENERALIZATION_THRESHOLD ≤ p.count then
    if p.status ≠ PatternStatus.ready ∧ p.status ≠ PatternStatus.generalized ∧
        p.status ≠ PatternStatus.dismissed then
      { p with status := PatternStatus.ready }
    else p
  else if p.status = PatternStatus.ready then
    { p with status := PatternStatus.tracking }
  else p

theorem checkOne_fst (p : Pattern) (q : List String) :
    (checkOne p q).1 = checkOnePat p := by
  unfold checkOne checkOnePat
  split_ifs <;> rfl

theorem checkAllAux_fst (q : List String) (ps : List Pattern) :
    (checkAllAux q ps).1 = ps.map checkOnePat := by
  induction ps generalizing q with
  | nil => rfl
  | cons p rest ih =>
    rw [checkAllAux]
    simp only [List.map_cons]
    rw [checkOne_fst, ih]

theorem checkOnePat_core (p : Pattern) :
    (checkOnePat p).count = p.count ∧
    (checkOnePat p).refinement_ids = p.refinement_ids ∧
    (checkOnePat p).id = p.id := by
  unfold checkOnePat
  split_ifs <;> exact ⟨rfl, rfl, rfl⟩

theorem thresholdPromote_core (p : Pattern) (q : List String) :
    (thresholdPromote p q).1.count = p.count ∧
    (thresholdPromote p q).1.refinement_ids = p.refinement_ids ∧
    (thresholdPromote p q).1.id = p.id ∧
    ((thresholdPromote p q).1.status = p.status ∨
      (thresholdPromote p q).1.status = PatternStatus.ready) := by
  unfold thresholdPromote
  split_ifs
  · exact ⟨rfl, rfl, rfl, Or.inr rfl⟩
  · exact ⟨rfl, rfl, rfl, Or.inl rfl⟩

theorem thresholdPromote_ready (p : Pattern) (q : List String)
    (h2 : 2 ≤ p.count) (hg : p.status ≠ PatternStatus.generalized) :
    (thresholdPromote p q).1.status = PatternStatus.ready := by
  unfold thresholdPromote GENERALIZATION_THRESHOLD
  rw [if_pos ⟨h2, hg⟩]

theorem thresholdPromote_create (pid : String) (r : Refinement) (now : String)
    (q : List String) :
    thresholdPromote (create_pattern pid r now) q = (create_pattern pid r now, q) := by
  unfold thresholdPromote
  rw [if_neg]
  intro hcon
  have : GENERALIZATION_THRESHOLD ≤ 1 := hcon.1
  simp [GENERALIZATION_THRESHOLD] at this

theorem markGenAux_some (pid : String) (ps ps' : List Pattern)
    (h : markGenAux pid ps = some ps') :
    ∃ j, ∃ hj : j < ps.length, ps[j].id = pid ∧
      ps' = ps.set j { ps[j] with status := PatternStatus.generalized } := by
  induction ps generalizing ps' with
  | nil => simp [markGenAux] at h
  | cons p rest ih =>
    rw [markGenAux] at h
    by_cases hid : p.id = pid
    · rw [if_pos hid, Option.some.injEq] at h
      exact ⟨0, by simp, by simpa using hid, by simp [← h]⟩
    · rw [if_neg hid] at h
      cases hm : markGenAux pid rest with
      | none => rw [hm] at h; simp at h
      | some rest' =>
        rw [hm] at h
        simp only [Option.map_some', Option.some.injEq] at h
        rcases ih rest' hm with ⟨j, hj, hjid, hset⟩
        refine ⟨j + 1, Nat.succ_lt_succ hj, by simpa using hjid, ?_⟩
        rw [← h, hset]
        simp

theorem dismissAux_some (pid reason : String) (ps ps' : List Pattern)
    (h : dismissAux pid reason ps = some ps') :
    ∃ j, ∃ hj : j < ps.length, ps[j].id = pid ∧
      ps' = ps.set j { ps[j] with
        status := PatternStatus.dismissed
        notes := some ((ps[j].notes.getD "") ++ "\nDismissed: " ++ reason) } := by
  induction ps generalizing ps' with
  | nil => simp [dismissAux] at h
  | cons p rest ih =>
    rw [dismissAux] at h
    by_cases hid : p.id = pid
    · rw [if_pos hid, Option.some.injEq] at h
      exact ⟨0, by simp, by simpa using hid, by simp [← h]⟩
    · rw [if_neg hid] at h
      cases hm : dismissAux pid reason rest with
      | none => rw [hm] at h; simp at h
      | some rest' =>
        rw [hm] at h
        simp only [Option.map_some', Option.some.injEq] at h
        rcases ih rest' hm with ⟨j, hj, hjid, hset⟩
        refine ⟨j + 1, Nat.succ_lt_succ hj, by simpa using hjid, ?_⟩
        rw [← h, hset]
        simp

-- ===========================================================================
-- Count / status invariants over reachable states
-- ===========================================================================

/-- Count–status invariant: every stored pattern has been seen at least
once; TRACKING patterns are exactly at count 1; READY patterns are at or
above the threshold. -/
def statusCountInv (ps : List Pattern) : Prop :=
  ∀ p ∈ ps, 1 ≤ p.count ∧
    (p.status = PatternStatus.tracking → p.count = 1) ∧
    (p.status = PatternStatus.ready → 2 ≤ p.count)

theorem genThreshold_eq : GENERALIZATION_THRESHOLD = 2 := rfl

theorem statusCountInv_checkOnePat (p : Pattern)
    (hp : 1 ≤ p.count ∧ (p.status = PatternStatus.tracking → p.count = 1) ∧
      (p.status = PatternStatus.ready → 2 ≤ p.count)) :
    1 ≤ (checkOnePat p).count ∧
    ((checkOnePat p).status = PatternStatus.tracking → (checkOnePat p).count = 1) ∧
    ((checkOnePat p).status = PatternStatus.ready → 2 ≤ (checkOnePat p).count) := by
  unfold checkOnePat
  rw [genThreshold_eq]
  split_ifs with h1 h2 h3
  · exact ⟨hp.1, fun ht => absurd ht (by simp), fun _ => h1⟩
  · exact ⟨hp.1, hp.2.1, fun _ => h1⟩
  · refine ⟨hp.1, fun _ => ?_, fun hcon => absurd hcon (by simp)⟩
    show p.count = 1
    have hlt : p.count < 2 := not_le.mp h1
    have h1' := hp.1
    omega
  · exact hp

/-- The count–status invariant holds in every reachable state. -/
theorem reach_statusCountInv (st : AggState) (h : Reachable st) :
    statusCountInv st.patterns := by
  obtain ⟨ids, h⟩ := h
  induction h with
  | init => intro p hp; exact absurd hp (List.not_mem_nil p)
  | @pnew st0 ids0 r now h ih =>
    intro p' hp'
    simp only [process_new_refinement] at hp'
    rcases hmatch : findMatchIdx r st0.patterns with _ | i <;>
      rw [hmatch] at hp' <;> simp only at hp'
    · rw [thresholdPromote_create] at hp'
      rcases List.mem_append.mp hp' with hmem | hmem
      · exact ih p' hmem
      · have hp'' : p' = create_pattern (get_pattern_id st0.patterns) r now := by
          simpa using hmem
        subst hp''
        exact ⟨le_refl 1, fun _ => rfl, fun hcon => absurd hcon (by simp [create_pattern])⟩
    · rcases List.mem_or_eq_of_mem_set hp' with hmem | hmem
      · exact ih p' hmem
      · have hlt := findMatchIdx_some_lt r st0.patterns i hmatch
        have hterm := findMatchIdx_not_terminal r st0.patterns i hmatch hlt
        have hgd : st0.patterns.getD i emptyPattern = st0.patterns[i] :=
          List.getD_eq_getElem st0.patterns emptyPattern hlt
        have hmem0 : st0.patterns[i] ∈ st0.patterns := List.getElem_mem hlt
        have h0 := ih _ hmem0
        have hcount1 : (update_pattern st0.patterns[i] r now).count =
            st0.patterns[i].count + 1 := rfl
        have hstat1 : (update_pattern st0.patterns[i] r now).status =
            st0.patterns[i].status := rfl
        have h2c : 2 ≤ (update_pattern st0.patterns[i] r now).count := by
          rw [hcount1]; omega
        have hng : (update_pattern st0.patterns[i] r now).status ≠
            PatternStatus.generalized := by
          rw [hstat1]; exact fun hcon => hterm (Or.inl hcon)
        have hready := thresholdPromote_ready _ st0.queue h2c hng
        have hcore := thresholdPromote_core (update_pattern st0.patterns[i] r now) st0.queue
        rw [hgd] at hmem
        subst hmem
        refine ⟨?_, fun ht => ?_, fun _ => ?_⟩
        · rw [hcore.1, hcount1]; omega
        · rw [hready] at ht; simp at ht
        · rw [hcore.1, hcount1]; omega
  | @call st0 ids0 h ih =>
    intro p' hp'
    simp only [check_all_patterns, checkAllAux_fst] at hp'
    rcases List.mem_map.mp hp' with ⟨p, hpmem, rfl⟩
    exact statusCountInv_checkOnePat p (ih p hpmem)
  | @mgen st0 ids0 pid h ih =>
    intro p' hp'
    rw [mark_generalized] at hp'
    rcases hm : markGenAux pid st0.patterns with _ | ps' <;> rw [hm] at hp'
    · exact ih p' hp'
    · simp only at hp'
      rcases markGenAux_some pid st0.patterns ps' hm with ⟨j, hj, hjid, rfl⟩
      rcases List.mem_or_eq_of_mem_set hp' with hmem | hmem
      · exact ih p' hmem
      · subst hmem
        have h0 := ih _ (List.getElem_mem hj)
        exact ⟨h0.1, fun ht => absurd ht (by simp), fun hr => absurd hr (by simp)⟩
  | @dism st0 ids0 pid reason h ih =>
    intro p' hp'
    rw [dismiss_pattern] at hp'
    rcases hm : dismissAux pid reason st0.patterns with _ | ps' <;> rw [hm] at hp'
    · exact ih p' hp'
    · simp only at hp'
      rcases dismissAux_some pid reason st0.patterns ps' hm with ⟨j, hj, hjid, rfl⟩
      rcases List.mem_or_eq_of_mem_set hp' with hmem | hmem
      · exact ih p' hmem
      · subst hmem
        have h0 := ih _ (List.getElem_mem hj)
        exact ⟨h0.1, fun ht => absurd ht (by simp), fun hr => absurd hr (by simp)⟩

-- ===========================================================================
-- C1: count versus recorded refinement ids
-- ===========================================================================

set_option maxRecDepth 40000 in
/-- C1 as stated is false on the code: processing the *same* refinement
twice matches the second submission to the pattern the first created
(+0.3 skill, +0.3 target section), increments `count` to 2, but records
only one distinct refinement id. -/
theorem count_distinct_ids_cex :
    ¬ ∀ p ∈ (process_new_refinement (process_new_refinement initState wRef "t1").1
        wRef "t2").1.patterns,
      p.count = p.refinement_ids.dedup.length := by decide

/-- Strengthened inductive invariant behind the amended C1: with pairwise
distinct processed refinement ids, every pattern's count equals the length
of its duplicate-free refinement-id list, and those ids come from the
processed ones. -/
theorem reach_ids_inv (st : AggState) (ids : List String) (h : ReachT st ids) :
    ids.Nodup →
    ∀ p ∈ st.patterns, p.count = p.refinement_ids.length ∧
      p.refinement_ids.Nodup ∧ ∀ x ∈ p.refinement_ids, x ∈ ids := by
  induction h with
  | init => intro _ p hp; exact absurd hp (List.not_mem_nil p)
  | @pnew st0 ids0 r now h ih =>
    intro hnd p' hp'
    rw [List.nodup_append] at hnd
    have hfresh : r.id ∉ ids0 := fun hmem => hnd.2.2 hmem (by simp)
    have ih' := ih hnd.1
    simp only [process_new_refinement] at hp'
    rcases hmatch : findMatchIdx r st0.patterns with _ | i <;>
      rw [hmatch] at hp' <;> simp only at hp'
    · rw [thresholdPromote_create] at hp'
      rcases List.mem_append.mp hp' with hmem | hmem
      · rcases ih' p' hmem with ⟨hc, hn, hsub⟩
        exact ⟨hc, hn, fun x hx => List.mem_append_left _ (hsub x hx)⟩
      · have hp'' : p' = create_pattern (get_pattern_id st0.patterns) r now := by
          simpa using hmem
        subst hp''
        refine ⟨rfl, List.nodup_singleton r.id, fun x hx => ?_⟩
        simp only [create_pattern, List.mem_singleton] at hx
        simp [hx]
    · rcases List.mem_or_eq_of_mem_set hp' with hmem | hmem
      · rcases ih' p' hmem with ⟨hc, hn, hsub⟩
        exact ⟨hc, hn, fun x hx => List.mem_append_left _ (hsub x hx)⟩
      · have hlt := findMatchIdx_some_lt r st0.patterns i hmatch
        have hgd : st0.patterns.getD i emptyPattern = st0.patterns[i] :=
          List.getD_eq_getElem st0.patterns emptyPattern hlt
        rcases ih' st0.patterns[i] (List.getElem_mem hlt) with ⟨hc, hn, hsub⟩
        have hnotmem : r.id ∉ st0.patterns[i].refinement_ids :=
          fun hmem => hfresh (hsub r.id hmem)
        have hids : (update_pattern st0.patterns[i] r now).refinement_ids =
            st0.patterns[i].refinement_ids ++ [r.id] := by
          simp [update_pattern, hnotmem]
        have hcnt : (update_pattern st0.patterns[i] r now).count =
            st0.patterns[i].count + 1 := rfl
        have hcore := thresholdPromote_core (update_pattern st0.patterns[i] r now) st0.queue
        rw [hgd] at hmem
        subst hmem
        refine ⟨?_, ?_, ?_⟩
        · rw [hcore.1, hcore.2.1, hcnt, hids, hc]
          simp
        · rw [hcore.2.1, hids]
          simp [List.nodup_append, hn, hnotmem]
        · rw [hcore.2.1, hids]
          intro x hx
          rcases List.mem_append.mp hx with hx | hx
          · exact List.mem_append_left _ (hsub x hx)
          · simp only [List.mem_singleton] at hx
            simp [hx]
  | @call st0 ids0 h ih =>
    intro hnd p' hp'
    simp only [check_all_patterns, checkAllAux_fst] at hp'
    rcases List.mem_map.mp hp' with ⟨p, hpmem, rfl⟩
    rcases ih hnd p hpmem with ⟨hc, hn, hsub⟩
    have hcore := checkOnePat_core p
    exact ⟨by rw [hcore.1, hcore.2.1, hc], by rw [hcore.2.1]; exact hn,
      by rw [hcore.2.1]; exact hsub⟩
  | @mgen st0 ids0 pid h ih =>
    intro hnd p' hp'
    rw [mark_generalized] at hp'
    rcases hm : markGenAux pid st0.patterns with _ | ps' <;> rw [hm] at hp'
    · exact ih hnd p' hp'
    · simp only at hp'
      rcases markGenAux_some pid st0.patterns ps' hm with ⟨j, hj, hjid, rfl⟩
      rcases List.mem_or_eq_of_mem_set hp' with hmem | hmem
      · exact ih hnd p' hmem
      · subst hmem
        rcases ih hnd _ (List.getElem_mem hj) with ⟨hc, hn, hsub⟩
        exact ⟨hc, hn, hsub⟩
  | @dism st0 ids0 pid reason h ih =>
    intro hnd p' hp'
    rw [dismiss_pattern] at hp'
    rcases hm : dismissAux pid reason st0.patterns with _ | ps' <;> rw [hm] at hp'
    · exact ih hnd p' hp'
    · simp only at hp'
      rcases dismissAux_some pid reason st0.patterns ps' hm with ⟨j, hj, hjid, rfl⟩
      rcases List.mem_or_eq_of_mem_set hp' with hmem | hmem
      · exact ih hnd p' hmem
      · subst hmem
        rcases ih hnd _ (List.getElem_mem hj) with ⟨hc, hn, hsub⟩
        exact ⟨hc, hn, hsub⟩

/-- C1 (amended): after any trace of lifecycle operations in which the
processed refinements carry pairwise-distinct ids, every pattern's count
equals the number of distinct refinement ids it records (its
`refinement_ids` list is then duplicate-free).  Without the distinctness
hypothesis the equality fails — see `count_distinct_ids_cex`: a repeated
refinement id raises `count` without growing `refinement_ids`. -/
theorem count_eq_distinct_ids_of_distinct (st : AggState) (ids : List String)
    (h : ReachT st ids) (hnd : ids.Nodup) :
    ∀ p ∈ st.patterns, p.count = p.refinement_ids.dedup.length ∧
      p.refinement_ids.Nodup := by
  intro p hp
  rcases reach_ids_inv st ids h hnd p hp with ⟨hc, hn, _⟩
  rw [List.dedup_eq_self.mpr hn]
  exact ⟨hc, hn⟩

/-- Second sample refinement: the same report as `wRef` under a fresh
id. -/
def wRefB : Refinement := { wRef with id := "R2" }

/-- State after processing `wRef` once from fresh stores. -/
def wState1 : AggState := (process_new_refinement initState wRef "t1").1

/-- State after processing `wRef` and then `wRefB`. -/
def wState2 : AggState := (process_new_refinement wState1 wRefB "t2").1

set_option maxRecDepth 40000 in
theorem count_eq_distinct_ids_witness :
    (wState2.patterns.getD 0 emptyPattern).count =
      (wState2.patterns.getD 0 emptyPattern).refinement_ids.dedup.length ∧
    (wState2.patterns.getD 0 emptyPattern).refinement_ids.Nodup :=
  count_eq_distinct_ids_of_distinct wState2 (([] ++ ["R1"]) ++ ["R2"])
    (ReachT.pnew wRefB "t2" (ReachT.pnew wRef "t1" ReachT.init)) (by decide)
    (wState2.patterns.getD 0 emptyPattern) (by decide)

-- ===========================================================================
-- C2: the READY threshold law
-- ===========================================================================

theorem status_tracking_of_not (s : PatternStatus)
    (h1 : ¬ (s = PatternStatus.generalized ∨ s = PatternStatus.dismissed))
    (h2 : s ≠ PatternStatus.ready) : s = PatternStatus.tracking := by
  cases s <;> simp_all

/-- The three per-pattern C2 conjuncts hold trivially at a pattern an
operation does not change. -/
theorem c2_conjuncts_of_eq (p : Pattern)
    (hi2 : p.status = PatternStatus.tracking → p.count = 1) :
    ((p.status = PatternStatus.generalized ∨ p.status = PatternStatus.dismissed) →
      p.status ≠ PatternStatus.ready) ∧
    (p.status = PatternStatus.ready ∧ p.status ≠ PatternStatus.ready →
      p.status = PatternStatus.tracking ∧ p.count = 1 ∧ p.count = 2) ∧
    (p.status = PatternStatus.tracking ∧ 2 ≤ p.count →
      p.status = PatternStatus.ready) := by
  refine ⟨?_, fun hcon => absurd hcon.1 hcon.2, fun hcon => ?_⟩
  · rintro (hs | hs) <;> simp [hs]
  · exfalso
    have := hi2 hcon.1
    omega

/-- `checkOnePat` leaves a terminal pattern untouched. -/
theorem checkOnePat_terminal (p : Pattern)
    (h : p.status = PatternStatus.generalized ∨ p.status = PatternStatus.dismissed) :
    checkOnePat p = p := by
  rcases h with hs | hs <;> (unfold checkOnePat; rw [hs]; simp)

/-- A pattern `checkOnePat` newly promotes was at the threshold and
TRACKING. -/
theorem checkOnePat_newly_ready (p : Pattern)
    (h : (checkOnePat p).status = PatternStatus.ready)
    (hn : p.status ≠ PatternStatus.ready) :
    2 ≤ p.count ∧ p.status = PatternStatus.tracking := by
  cases hs : p.status with
  | ready => exact absurd hs hn
  | generalized =>
    rw [checkOnePat_terminal p (Or.inl hs)] at h
    exact absurd h (by simp [hs])
  | dismissed =>
    rw [checkOnePat_terminal p (Or.inr hs)] at h
    exact absurd h (by simp [hs])
  | tracking =>
    refine ⟨?_, rfl⟩
    by_contra hlt
    push_neg at hlt
    have hid : checkOnePat p = p := by
      unfold checkOnePat
      rw [if_neg (by rw [genThreshold_eq]; omega), if_neg (by rw [hs]; simp)]
    rw [hid, hs] at h
    simp at h

/-- C2: the READY threshold law over reachable states.  Across any single
lifecycle operation and at every pattern position: (a) a GENERALIZED or
DISMISSED pattern is never READY afterwards; (b) a pattern that *becomes*
READY was TRACKING at count 1 and the operation moved its count to 2 —
promotion happens exactly when the count first reaches the threshold 2
while still TRACKING (counts never decrease, so count 2 is reached here
for the first time); (c) a TRACKING pattern whose count is at the
threshold after the operation has been promoted; (d) patterns created by
the operation start TRACKING at count 1. -/
theorem ready_threshold_law (st st' : AggState) (hre : Reachable st)
    (hstep : StepR st st') (i : ℕ) (p p' : Pattern)
    (hp : st.patterns[i]? = some p) (hp' : st'.patterns[i]? = some p') :
    ((p.status = PatternStatus.generalized ∨ p.status = PatternStatus.dismissed) →
      p'.status ≠ PatternStatus.ready) ∧
    (p'.status = PatternStatus.ready ∧ p.status ≠ PatternStatus.ready →
      p.status = PatternStatus.tracking ∧ p.count = 1 ∧ p'.count = 2) ∧
    (p.status = PatternStatus.tracking ∧ 2 ≤ p'.count →
      p'.status = PatternStatus.ready) ∧
    (∀ j q, st.patterns.length ≤ j → st'.patterns[j]? = some q →
      q.status = PatternStatus.tracking ∧ q.count = 1) := by
  have hinv := reach_statusCountInv st hre
  have hpmem : p ∈ st.patterns := List.getElem?_mem hp
  have hip := hinv p hpmem
  have hilt : i < st.patterns.length := by
    by_contra hcon
    rw [List.getElem?_eq_none_iff.mpr (by omega)] at hp
    exact Option.noConfusion hp
  have hpeq : st.patterns[i] = p := by
    have := List.getElem?_eq_getElem hilt
    rw [this, Option.some.injEq] at hp
    exact hp
  cases hstep with
  | pnew r now =>
    simp only [process_new_refinement] at hp' ⊢
    rcases hmatch : findMatchIdx r st.patterns with _ | k <;>
      simp only [hmatch] at hp' ⊢
    · rw [thresholdPromote_create] at hp'
      rw [List.getElem?_append_left hilt, List.getElem?_eq_getElem hilt,
        Option.some.injEq, hpeq] at hp'
      subst hp'
      refine ⟨(c2_conjuncts_of_eq p hip.2.1).1, (c2_conjuncts_of_eq p hip.2.1).2.1,
        (c2_conjuncts_of_eq p hip.2.1).2.2, ?_⟩
      intro j q hjlen hq
      rw [thresholdPromote_create] at hq
      have hjlt : j < st.patterns.length + 1 := by
        by_contra hcon
        rw [List.getElem?_eq_none_iff.mpr (by simp; omega)] at hq
        exact Option.noConfusion hq
      have hjeq : j = st.patterns.length := by omega
      subst hjeq
      rw [List.getElem?_append_right (le_refl _)] at hq
      simp only [Nat.sub_self, List.getElem?_cons_zero, Option.some.injEq] at hq
      subst hq
      exact ⟨rfl, rfl⟩
    · have hlt := findMatchIdx_some_lt r st.patterns k hmatch
      have hterm := findMatchIdx_not_terminal r st.patterns k hmatch hlt
      have hkp := hinv (st.patterns[k]) (List.getElem_mem hlt)
      have hcnt : (update_pattern (st.patterns.getD k emptyPattern) r now).count =
          st.patterns[k].count + 1 := by
        rw [List.getD_eq_getElem st.patterns emptyPattern hlt]
        rfl
      have hstat : (update_pattern (st.patterns.getD k emptyPattern) r now).status =
          st.patterns[k].status := by
        rw [List.getD_eq_getElem st.patterns emptyPattern hlt]
        rfl
      have h2c : 2 ≤ (update_pattern (st.patterns.getD k emptyPattern) r now).count := by
        rw [hcnt]; have := hkp.1; omega
      have hng : (update_pattern (st.patterns.getD k emptyPattern) r now).status ≠
          PatternStatus.generalized := by
        rw [hstat]; exact fun hcon => hterm (Or.inl hcon)
      have hready := thresholdPromote_ready _ st.queue h2c hng
      have hcore := thresholdPromote_core
        (update_pattern (st.patterns.getD k emptyPattern) r now) st.queue
      refine ⟨?_, ?_, ?_, ?_⟩
      · intro htermi
        by_cases hik : i = k
        · subst hik
          rw [hpeq] at hterm
          exact absurd htermi hterm
        · rw [List.getElem?_set_ne (fun hcon => hik hcon.symm),
            List.getElem?_eq_getElem hilt, Option.some.injEq, hpeq] at hp'
          subst hp'
          exact (c2_conjuncts_of_eq p hip.2.1).1 htermi
      · intro hcon
        by_cases hik : i = k
        · subst hik
          rw [List.getElem?_set_self hilt, Option.some.injEq] at hp'
          subst hp'
          rw [hpeq] at hterm hkp
          have htr : p.status = PatternStatus.tracking :=
            status_tracking_of_not _ hterm hcon.2
          have hc1 : p.count = 1 := hip.2.1 htr
          refine ⟨htr, hc1, ?_⟩
          rw [hcore.1, hcnt, hpeq, hc1]
        · rw [List.getElem?_set_ne (fun hcon' => hik hcon'.symm),
            List.getElem?_eq_getElem hilt, Option.some.injEq, hpeq] at hp'
          subst hp'
          exact absurd hcon.1 hcon.2
      · intro hcon
        by_cases hik : i = k
        · subst hik
          rw [List.getElem?_set_self hilt, Option.some.injEq] at hp'
          subst hp'
          exact hready
        · rw [List.getElem?_set_ne (fun hcon' => hik hcon'.symm),
            List.getElem?_eq_getElem hilt, Option.some.injEq, hpeq] at hp'
          subst hp'
          exact (c2_conjuncts_of_eq p hip.2.1).2.2 hcon
      · intro j q hjlen hq
        exfalso
        rw [List.getElem?_eq_none_iff.mpr (by rw [List.length_set]; omega)] at hq
        exact Option.noConfusion hq
  | call =>
    simp only [check_all_patterns, checkAllAux_fst] at hp' ⊢
    rw [List.getElem?_map, List.getElem?_eq_getElem hilt, hpeq] at hp'
    simp only [Option.map_some', Option.some.injEq] at hp'
    subst hp'
    refine ⟨fun hterm => ?_, fun hcon => ?_, fun hcon => ?_, ?_⟩
    · rw [checkOnePat_terminal p hterm]
      rcases hterm with hs | hs <;> simp [hs]
    · exfalso
      rcases checkOnePat_newly_ready p hcon.1 hcon.2 with ⟨h2, htr⟩
      have := hip.2.1 htr
      omega
    · exfalso
      have hc := (checkOnePat_core p).1
      have := hip.2.1 hcon.1
      omega
    · intro j q hjlen hq
      exfalso
      rw [List.getElem?_eq_none_iff.mpr (by rw [List.length_map]; omega)] at hq
      exact Option.noConfusion hq
  | mgen pid =>
    simp only [mark_generalized] at hp' ⊢
    rcases hm : markGenAux pid st.patterns with _ | ps' <;>
      simp only [hm] at hp' ⊢
    · rw [hp] at hp'
      rw [Option.some.injEq] at hp'
      subst hp'
      refine ⟨(c2_conjuncts_of_eq p hip.2.1).1, (c2_conjuncts_of_eq p hip.2.1).2.1,
        (c2_conjuncts_of_eq p hip.2.1).2.2, ?_⟩
      intro j q hjlen hq
      exfalso
      rw [List.getElem?_eq_none_iff.mpr (by omega)] at hq
      exact Option.noConfusion hq
    · rcases markGenAux_some pid st.patterns ps' hm with ⟨k, hk, hkid, rfl⟩
      by_cases hik : i = k
      · subst hik
        rw [List.getElem?_set_self hilt, Option.some.injEq] at hp'
        subst hp'
        refine ⟨fun _ => by simp, fun hcon => absurd hcon.1 (by simp),
          fun hcon => ?_, ?_⟩
        · exfalso
          have hc := hip.2.1 hcon.1
          have h2 : 2 ≤ st.patterns[i].count := hcon.2
          rw [hpeq] at h2
          omega
        · intro j q hjlen hq
          exfalso
          rw [List.getElem?_eq_none_iff.mpr (by rw [List.length_set]; omega)] at hq
          exact Option.noConfusion hq
      · rw [List.getElem?_set_ne (fun hcon => hik hcon.symm),
          List.getElem?_eq_getElem hilt, Option.some.injEq, hpeq] at hp'
        subst hp'
        refine ⟨(c2_conjuncts_of_eq p hip.2.1).1, (c2_conjuncts_of_eq p hip.2.1).2.1,
          (c2_conjuncts_of_eq p hip.2.1).2.2, ?_⟩
        intro j q hjlen hq
        exfalso
        rw [List.getElem?_eq_none_iff.mpr (by rw [List.length_set]; omega)] at hq
        exact Option.noConfusion hq
  | dism pid reason =>
    simp only [dismiss_pattern] at hp' ⊢
    rcases hm : dismissAux pid reason st.patterns with _ | ps' <;>
      simp only [hm] at hp' ⊢
    · rw [hp] at hp'
      rw [Option.some.injEq] at hp'
      subst hp'
      refine ⟨(c2_conjuncts_of_eq p hip.2.1).1, (c2_conjuncts_of_eq p hip.2.1).2.1,
        (c2_conjuncts_of_eq p hip.2.1).2.2, ?_⟩
      intro j q hjlen hq
      exfalso
      rw [List.getElem?_eq_none_iff.mpr (by omega)] at hq
      exact Option.noConfusion hq
    · rcases dismissAux_some pid reason st.patterns ps' hm with ⟨k, hk, hkid, rfl⟩
      by_cases hik : i = k
      · subst hik
        rw [List.getElem?_set_self hilt, Option.some.injEq] at hp'
        subst hp'
        refine ⟨fun _ => by simp, fun hcon => absurd hcon.1 (by simp),
          fun hcon => ?_, ?_⟩
        · exfalso
          have hc := hip.2.1 hcon.1
          have h2 : 2 ≤ st.patterns[i].count := hcon.2
          rw [hpeq] at h2
          omega
        · intro j q hjlen hq
          exfalso
          rw [List.getElem?_eq_none_iff.mpr (by rw [List.length_set]; omega)] at hq
          exact Option.noConfusion hq
      · rw [List.getElem?_set_ne (fun hcon => hik hcon.symm),
          List.getElem?_eq_getElem hilt, Option.some.injEq, hpeq] at hp'
        subst hp'
        refine ⟨(c2_conjuncts_of_eq p hip.2.1).1, (c2_conjuncts_of_eq p hip.2.1).2.1,
          (c2_conjuncts_of_eq p hip.2.1).2.2, ?_⟩
        intro j q hjlen hq
        exfalso
        rw [List.getElem?_eq_none_iff.mpr (by rw [List.length_set]; omega)] at hq
        exact Option.noConfusion hq

/-- The pattern stored after the first processing of `wRef`. -/
def wP1 : Pattern := wState1.patterns.getD 0 emptyPattern

/-- The same pattern after `wRefB` was matched into it. -/
def wP2 : Pattern := wState2.patterns.getD 0 emptyPattern

set_option maxRecDepth 40000 in
theorem ready_threshold_law_witness :
    wP2.status = PatternStatus.ready ∧ wP1.status ≠ PatternStatus.ready ∧
    (wP1.status = PatternStatus.tracking ∧ wP1.count = 1 ∧ wP2.count = 2) :=
  ⟨by decide, by decide,
   (ready_threshold_law wState1 wState2
     ⟨[] ++ ["R1"], ReachT.pnew wRef "t1" ReachT.init⟩
     (StepR.pnew wState1 wRefB "t2") 0 wP1 wP2 (by decide) (by decide)).2.1
     ⟨by decide, by decide⟩⟩

-- ===========================================================================
-- C4: queue membership versus READY status
-- ===========================================================================

/-- The id of the queue entry a line heads, when it heads one: entry
headers have the shape `### PATTERN-<digits>: <name>`, and the id is the
`PATTERN-` numeral. -/
def queueHeaderId (l : String) : Option String :=
  if strStarts "### PATTERN-" l then
    match (l.data.drop 12).takeWhile Char.isDigit with
    | [] => none
    | ds => some ("PATTERN-" ++ (⟨ds⟩ : String))
  else none

/-- The pattern ids having an entry in the queue document. -/
def hasQueueEntry (q : List String) (pid : String) : Bool :=
  q.any (fun l => queueHeaderId l = some pid)

/-- A refinement whose *skill name* is the string `PATTERN-001`.  Nothing
in the system validates skill names, and the queue dedup check is a raw
substring test over the whole document. -/
def cxR2 : Refinement :=
  { id := "R2", skill := "PATTERN-001", category := RefinementCategory.hook,
    target_section := "zz/b", expected_behavior := "qqqq wwww",
    actual_behavior := "eeee rrrr", project := "" }

/-- A second submission of the same report (fresh id). -/
def cxR3 : Refinement := { cxR2 with id := "R3" }

/-- A second submission of `wRef`'s report (fresh id). -/
def cxR4 : Refinement := { wRef with id := "R4" }

/-- Four refinements processed from fresh stores: `wRef` creates
PATTERN-001; `cxR2` creates PATTERN-002 (whose affected skill is the
*string* "PATTERN-001"); `cxR3` promotes PATTERN-002 into the queue — its
entry lists the skill `- PATTERN-001`; `cxR4` then promotes
PATTERN-001. -/
def cxState : AggState :=
  (process_new_refinement
    (process_new_refinement
      (process_new_refinement
        (process_new_refinement initState wRef "t1").1 cxR2 "t2").1 cxR3 "t3").1
    cxR4 "t4").1

set_option maxRecDepth 80000 in
/-- C4 fails on the code: in `cxState`, PATTERN-001 is READY yet has no
queue entry.  When PATTERN-001 was promoted, `_add_to_generalization_queue`
skipped the insert because its dedup test is the raw substring check
`pattern.id in content`, and the text `PATTERN-001` already occurs inside
PATTERN-002's entry (as a listed skill).  The same substring check also
misfires without adversarial input once ids of different lengths coexist
(`PATTERN-100` occurs inside `PATTERN-1000`).  The spec's intent — "the
queue contains exactly the patterns currently in READY status" and an
*entry-for-this-id* dedup — is clear, so the check is a slip in the
code. -/
theorem queue_sync_cex :
    (∃ p ∈ cxState.patterns, p.id = "PATTERN-001" ∧
      p.status = PatternStatus.ready) ∧
    hasQueueEntry cxState.queue "PATTERN-001" = false ∧
    hasQueueEntry cxState.queue "PATTERN-002" = true := by decide

-- ===========================================================================
-- C9: what `_remove_from_queue` actually deletes
-- ===========================================================================

/-- A queued READY pattern (as promoted from `wPat`). -/
def c9Pat : Pattern := { wPat with count := 2, status := PatternStatus.ready }

/-- A real queue document: the template with `c9Pat`'s entry inserted by
the code's own `add` operation. -/
def c9Doc : List String := add_to_generalization_queue queueTemplate c9Pat

set_option maxRecDepth 80000 in
/-- C9 fails as stated on the code's own documents: removing the only
entry of `c9Doc` deletes not just that entry but everything after it —
the lazy removal regex `### {id}: .+?(?=### PATTERN-|\Z)` runs to the end
of the document when no further `### PATTERN-` header follows, eating the
template's trailing `## Pending More Data` section. -/
theorem remove_block_cex :
    "## Pending More Data" ∈ c9Doc ∧
    hasQueueEntry c9Doc "PATTERN-001" = true ∧
    remove_from_queue c9Doc "PATTERN-001" = qHead ++ [qReadyHeaderLine, ""] ∧
    "## Pending More Data" ∉ remove_from_queue c9Doc "PATTERN-001" := by decide

theorem removeScan_false_id (pid : String) (q : List String)
    (h : ∀ l ∈ q, entryHeadLine pid l = false) :
    removeScan pid false q = q := by
  induction q with
  | nil => rfl
  | cons l ls ih =>
    rw [removeScan, if_neg (by rw [h l (by simp)]; simp)]
    rw [ih (fun l' hl' => h l' (by simp [hl']))]

theorem removeScan_false_append (pid : String) (pre q : List String)
    (h : ∀ l ∈ pre, entryHeadLine pid l = false) :
    removeScan pid false (pre ++ q) = pre ++ removeScan pid false q := by
  induction pre with
  | nil => rfl
  | cons l ls ih =>
    rw [List.cons_append, removeScan, if_neg (by rw [h l (by simp)]; simp)]
    rw [ih (fun l' hl' => h l' (by simp [hl'])), List.cons_append]

theorem removeScan_true_skip (pid : String) (body q : List String)
    (h : ∀ l ∈ body, boundaryLine l = false) :
    removeScan pid true (body ++ q) = removeScan pid true q := by
  induction body with
  | nil => rfl
  | cons l ls ih =>
    rw [List.cons_append, removeScan, if_neg (by rw [h l (by simp)]; simp)]
    exact ih (fun l' hl' => h l' (by simp [hl']))

/-- C9 (amended): removal deletes the matched entry *together with
everything that follows it up to the next `### PATTERN-` header or the end
of the document*; the lines before the entry and from the next
`### PATTERN-` header onward are untouched.  In particular, exactly the
one entry is removed when another `### PATTERN-` entry directly follows
it; when the removed entry is the last one, all trailing non-entry content
is lost as well (`remove_block_cex`). -/
theorem remove_deletes_block (pid hdr : String) (pre body post : List String)
    (hpre : ∀ l ∈ pre, entryHeadLine pid l = false)
    (hhdr : entryHeadLine pid hdr = true)
    (hbody : ∀ l ∈ body, boundaryLine l = false)
    (hpost : ∀ l ∈ post, entryHeadLine pid l = false)
    (hpost0 : post = [] ∨ ∃ b rest, post = b :: rest ∧ boundaryLine b = true) :
    remove_from_queue (pre ++ hdr :: body ++ post) pid = pre ++ post := by
  unfold remove_from_queue
  have hassoc : pre ++ hdr :: body ++ post = pre ++ (hdr :: (body ++ post)) := by simp
  rw [hassoc, removeScan_false_append pid pre (hdr :: (body ++ post)) hpre]
  congr 1
  rw [removeScan, if_pos (by rw [hhdr])]
  rw [removeScan_true_skip pid body post hbody]
  rcases hpost0 with rfl | ⟨b, rest, rfl, hb⟩
  · rfl
  · rw [removeScan, if_pos (by rw [hb]),
      if_neg (by rw [hpost b (by simp)]; simp)]
    rw [removeScan_false_id pid rest (fun l' hl' => hpost l' (by simp [hl']))]

/-- A second entry header following the removed entry. -/
def c9Hdr2 : String := "### PATTERN-002: other-entry"

set_option maxRecDepth 80000 in
theorem remove_deletes_block_witness :
    remove_from_queue
      ((qHead ++ [qReadyHeaderLine, ""]) ++
        "### PATTERN-001: hook-hooks-a-allow-tests" ::
          (format_queue_entry c9Pat).drop 1 ++ [c9Hdr2, "- body"]) "PATTERN-001" =
      (qHead ++ [qReadyHeaderLine, ""]) ++ [c9Hdr2, "- body"] :=
  remove_deletes_block "PATTERN-001" "### PATTERN-001: hook-hooks-a-allow-tests"
    (qHead ++ [qReadyHeaderLine, ""]) ((format_queue_entry c9Pat).drop 1)
    [c9Hdr2, "- body"]
    (by decide) (by decide) (by decide) (by decide)
    (Or.inr ⟨c9Hdr2, ["- body"], rfl, by decide⟩)

-- ===========================================================================
-- C3: pattern persistence — `_save_patterns` / `_format_pattern` /
-- `_load_patterns`
-- ===========================================================================

/-- The status icon written by `_format_pattern` (`status_icons` dict; the
`.get` default `"⚪"` is dead — the dict is total on the enum). -/
def statusIcon : PatternStatus → String
  | .tracking => "⚪"
  | .ready => "🟡"
  | .generalized => "✅"
  | .dismissed => "⛔"

/-- `PatternAggregator._format_pattern`: the markdown block written for one
pattern.  The document is modelled as its list of lines (the source joins
them with `"\n"`); the timestamps render as their opaque isoformat strings
(a `datetime` is never falsy, so the `else 'unknown'` branches are dead). -/
def format_pattern (p : Pattern) : List String :=
  ["### " ++ statusIcon p.status ++ " " ++ p.id ++ ": " ++ p.name,
   "- **First seen:** " ++ p.first_seen,
   "- **Last seen:** " ++ p.last_seen,
   "- **Count:** " ++ natToDec p.count,
   "- **Status:** " ++ p.status.value,
   "",
   "**Affected Skills:**"]
  ++ p.affected_skills.map (fun s => "- " ++ s)
  ++ ["", "**Description:**", p.description, ""]
  ++ (if p.projects = [] then [] else ["**Projects:** " ++ pyJoin ", " p.projects])
  ++ (if p.refinement_ids = [] then []
      else ["**Refinement IDs:** " ++ pyJoin ", " p.refinement_ids])
  ++ ["", "---", ""]

/-- `PatternAggregator._save_patterns`: group by status, then emit the
fixed preamble and the four sections (Ready first, then Tracking,
Generalized, and — only when nonempty — Dismissed), with placeholder lines
for empty sections.  `now` stands for `datetime.now().isoformat()`. -/
def save_patterns (patterns : List Pattern) (now : String) : List String :=
  let tracking := patterns.filter (fun p => p.status == PatternStatus.tracking)
  let ready := patterns.filter (fun p => p.status == PatternStatus.ready)
  let generalized := patterns.filter (fun p => p.status == PatternStatus.generalized)
  let dismissed := patterns.filter (fun p => p.status == PatternStatus.dismissed)
  ["# Aggregated Refinement Patterns", "",
   "> Auto-updated when pattern count >= " ++ natToDec GENERALIZATION_THRESHOLD,
   "> Last updated: " ++ now, "",
   "## Ready for Generalization", ""]
  ++ (if ready = [] then ["*No patterns ready for generalization*", ""]
      else (ready.map format_pattern).flatten)
  ++ ["---", "", "## Tracking (count < threshold)", ""]
  ++ (if tracking = [] then ["*No patterns currently tracking*", ""]
      else (tracking.map format_pattern).flatten)
  ++ ["---", "", "## Generalized (Applied)", ""]
  ++ (if generalized = [] then ["*No patterns generalized yet*", ""]
      else (generalized.map format_pattern).flatten)
  ++ (if dismissed = [] then []
      else ["---", "", "## Dismissed", ""] ++ (dismissed.map format_pattern).flatten)

/-- The `status_map` of `_load_patterns` restricted to the regex character
class `[⚪🟡✅⛔]` (its `.get` default is dead: the class admits only the
four mapped icons). -/
def iconStatus (c : Char) : Option PatternStatus :=
  if c = '⚪' then some PatternStatus.tracking
  else if c = '🟡' then some PatternStatus.ready
  else if c = '✅' then some PatternStatus.generalized
  else if c = '⛔' then some PatternStatus.dismissed
  else none

/-- Line-level model of the block-header part of the `_load_patterns`
regex `### ([⚪🟡✅⛔]) (PATTERN-\d+): (.+?)\n`: a header line is
`### <icon> PATTERN-<digits>: <name>` with at least one digit and a
nonempty name.  (`\d+` is greedy and must be followed by `": "`, so it
captures exactly the maximal digit run; the non-greedy name capture stops
at the first newline, i.e. takes the rest of the line.)  The regex scans
the raw text, so it could in principle also fire mid-line; the documents
the theorems below apply this to keep `### ` out of every field, where the
two readings agree. -/
def parseHeaderRest (c : Char) (rest : List Char) :
    Option (PatternStatus × String × String) :=
  match iconStatus c, listStarts "PATTERN-".data rest with
  | some st, true =>
    let ds := (rest.drop 8).takeWhile Char.isDigit
    let after := (rest.drop 8).dropWhile Char.isDigit
    if ds = [] then none
    else
      match after with
      | ':' :: ' ' :: nm =>
        if nm = [] then none
        else some (st, ⟨"PATTERN-".data ++ ds⟩, ⟨nm⟩)
      | _ => none
  | _, _ => none

/-- Header-line recognition itself: `### `, then the icon char, a space,
and the id/name part. -/
def parseHeader (l : String) : Option (PatternStatus × String × String) :=
  match l.data with
  | '#' :: '#' :: '#' :: ' ' :: c :: ' ' :: rest => parseHeaderRest c rest
  | _ => none

/-- `re.search(r"\*\*Count:\*\* (\d+)", ...)` within one line: the first
occurrence of `**Count:** ` that is followed by a digit, returning the
value of the maximal digit run after it. -/
def scanCount : List Char → Option Nat
  | [] => none
  | c :: cs =>
    if listStarts "**Count:** ".data (c :: cs) then
      match (cs.drop 10).takeWhile Char.isDigit with
      | [] => scanCount cs
      | ds => some (digitsToNat ds)
    else scanCount cs

/-- `re.search(pat ++ r"(.+)", ...)` within one line: the rest of the line
after the first occurrence of `pat` that has a nonempty remainder. -/
def scanAfter (pat : List Char) : List Char → Option (List Char)
  | [] => none
  | c :: cs =>
    if listStarts pat (c :: cs) then
      match (c :: cs).drop pat.length with
      | [] => scanAfter pat cs
      | rest => some rest
    else scanAfter pat cs

/-- Python `s.endswith(suf)` — here: the regex occurrence `suf` followed
immediately by a newline, i.e. a line ending in `suf`. -/
def strEnds (suf s : String) : Bool := listStarts suf.data.reverse s.data.reverse

/-- One line of the `(?:- .+\n)+` run: `- ` followed by at least one
character. -/
def dashLine (l : String) : Bool :=
  match l.data with
  | '-' :: ' ' :: _ :: _ => true
  | _ => false

/-- `re.search(r"\*\*Affected Skills:\*\*\n((?:- .+\n)+)", block)` and the
inner `re.findall(r"- (.+?)(?:\n|$)", ...)`: the maximal run of `- `-lines
directly after the first line ending in `**Affected Skills:**` that is
followed by at least one such line, each stripped of its `- ` prefix. -/
def findSkills : List String → Option (List String)
  | [] => none
  | l :: ls =>
    if strEnds "**Affected Skills:**" l then
      match ls.takeWhile dashLine with
      | [] => findSkills ls
      | run => some (run.map (fun l' => (⟨l'.data.drop 2⟩ : String)))
    else findSkills ls

/-- `re.search(r"\*\*Description:\*\*\n(.+?)(?=\*\*|$)", block, DOTALL)`
at line level: the lines after the first line ending in `**Description:**`
up to the next line containing `**` (the regex stops at the first `**` in
the raw text; on documents whose fields contain no `*` the two readings
agree). -/
def findDescLines : List String → Option (List String)
  | [] => none
  | l :: ls =>
    if strEnds "**Description:**" l then
      some (ls.takeWhile (fun l' => !occursIn "**" l'))
    else findDescLines ls

/-- The block accumulator of the `_load_patterns` regex
`### (..) (PATTERN-\d+): (.+?)\n(.+?)(?=### [..] PATTERN-|\Z)` with
`re.findall`/`DOTALL`: lines before the first header are discarded; each
header opens a block that collects every following line up to the next
header. -/
def blocksAux :
    List String → Option ((PatternStatus × String × String) × List String) →
      List ((PatternStatus × String × String) × List String)
  | [], none => []
  | [], some (h, acc) => [(h, acc.reverse)]
  | l :: ls, none =>
    match parseHeader l with
    | some h => blocksAux ls (some (h, []))
    | none => blocksAux ls none
  | l :: ls, some (h, acc) =>
    match parseHeader l with
    | some h' => (h, acc.reverse) :: blocksAux ls (some (h', []))
    | none => blocksAux ls (some (h, l :: acc))

/-- The `[r.strip() for r in m.group(1).split(",")]` treatment of a
matched rest-of-line, with `[]` when the field regex does not match. -/
def parseAtoms : Option (List Char) → List String
  | none => []
  | some rest => (splitCharL ',' rest).map (fun r => pyStrip ⟨r⟩)

/-- Parsing of one block's fields in `_load_patterns` (count defaulting
to 1, comma-split-and-strip for refinement ids and projects, the raw
header name as description fallback, `now` for the `datetime.now()`
timestamp fallbacks; `fromisoformat` on the isoformat strings the saver
writes is modelled as the identity). -/
def loadBlock (h : PatternStatus × String × String) (body : List String)
    (now : String) : Pattern :=
  let count := (body.findSome? (fun l => scanCount l.data)).getD 1
  let skills := (findSkills body).getD []
  let refs :=
    parseAtoms (body.findSome? (fun l => scanAfter "**Refinement IDs:** ".data l.data))
  let projects :=
    parseAtoms (body.findSome? (fun l => scanAfter "**Projects:** ".data l.data))
  let description :=
    match findDescLines body with
    | some dls => pyStrip (joinLines dls)
    | none => h.2.2
  let first_seen :=
    match body.findSome? (fun l => scanAfter "**First seen:** ".data l.data) with
    | none => now
    | some rest => pyStrip ⟨rest⟩
  let last_seen :=
    match body.findSome? (fun l => scanAfter "**Last seen:** ".data l.data) with
    | none => now
    | some rest => pyStrip ⟨rest⟩
  { id := h.2.1
    name := pyStrip h.2.2
    description := description
    affected_skills := skills
    refinement_ids := refs
    projects := projects
    count := count
    status := h.1
    first_seen := first_seen
    last_seen := last_seen }

/-- `PatternAggregator._load_patterns` over the document's lines. -/
def load_patterns (doc : List String) (now : String) : List Pattern :=
  (blocksAux doc none).map (fun b => loadBlock b.1 b.2 now)

/-- The semantic key of the round-trip claim: id, status, count,
affected-skill *set*, project *set*, and refinement-id *list*. -/
def patKey (p : Pattern) :
    String × PatternStatus × Nat × Finset String × Finset String × List String :=
  (p.id, p.status, p.count, p.affected_skills.toFinset, p.projects.toFinset,
    p.refinement_ids)

/-- "Semantically equal" pattern lists (spec's words): the same patterns
up to reordering, compared on the keys of `patKey`. -/
def semEq (P Q : List Pattern) : Prop := (P.map patKey).Perm (Q.map patKey)

/-- A free-text field that survives the markdown round trip: no `*` (so
it cannot fake or break a `**…**` field marker), no `#` (so it cannot fake
a header), no newline (so it stays on its line). -/
def fieldOk (s : String) : Prop :=
  '*' ∉ s.data ∧ '#' ∉ s.data ∧ '\n' ∉ s.data

/-- A list atom (refinement id / project) that survives the
comma-join/comma-split-and-strip round trip: clean, nonempty, comma-free
and `strip`-fixed. -/
def atomOk (s : String) : Prop :=
  fieldOk s ∧ s ≠ "" ∧ ',' ∉ s.data ∧ pyStrip s = s

/-- Patterns the saver/loader round-trips faithfully: a `PATTERN-<digits>`
id, a nonempty clean name, clean description and timestamps, clean
nonempty skills, and well-behaved refinement-id/project atoms. -/
def wfPattern (p : Pattern) : Prop :=
  (listStarts "PATTERN-".data p.id.data ∧ p.id.data.drop 8 ≠ [] ∧
    ∀ c ∈ p.id.data.drop 8, c.isDigit) ∧
  fieldOk p.name ∧ p.name ≠ "" ∧
  fieldOk p.description ∧
  (∀ s ∈ p.affected_skills, fieldOk s ∧ s ≠ "") ∧
  (∀ r ∈ p.refinement_ids, atomOk r) ∧
  (∀ x ∈ p.projects, atomOk x) ∧
  fieldOk p.first_seen ∧ fieldOk p.last_seen

/-- The fixed scaffold lines `_save_patterns` can place between one
pattern's block and the next header. -/
def sectionJunk : List String :=
  ["", "---", "## Ready for Generalization", "## Tracking (count < threshold)",
   "## Generalized (Applied)", "## Dismissed",
   "*No patterns ready for generalization*", "*No patterns currently tracking*",
   "*No patterns generalized yet*"]


/-- A pattern whose single refinement id contains a comma. -/
def c3Pat : Pattern :=
  { id := "PATTERN-001", name := "n", description := "d",
    affected_skills := ["s"], refinement_ids := ["a,b"], projects := ["p"],
    count := 1, status := PatternStatus.tracking,
    first_seen := "t", last_seen := "t" }

set_option maxRecDepth 80000 in
/-- C3 fails as stated: the persistence layer is lossy.  Saving a pattern
whose refinement id contains a comma and loading it back splits the id at
the comma (`refs_match.group(1).split(",")`), so `load(save(P))` is not
semantically equal to `P` — the refinement-id list `["a,b"]` comes back
as `["a", "b"]`. -/
theorem save_load_cex :
    c3Pat.refinement_ids = ["a,b"] ∧
    (load_patterns (save_patterns [c3Pat] "t") "t").map
        (fun p => p.refinement_ids) = [["a", "b"]] ∧
    ¬ semEq (load_patterns (save_patterns [c3Pat] "t") "t") [c3Pat] := by
  refine ⟨by decide, by decide, ?_⟩
  intro h
  unfold semEq at h
  have hl : (load_patterns (save_patterns [c3Pat] "t") "t").map patKey =
      [patKey c3Pat] := List.perm_singleton.mp (by simpa using h)
  exact absurd (congrArg (List.map (fun k => k.2.2.2.2.2)) hl) (by decide)

-- Parsing-helper lemmas for the persistence round trip.

theorem decDigitsAux_spec : ∀ fuel n, n < fuel →
    decDigitsAux fuel n ≠ [] ∧ (∀ c ∈ decDigitsAux fuel n, c.isDigit) ∧
    digitsToNat (decDigitsAux fuel n) = n := by
  intro fuel
  induction fuel with
  | zero => intro n hn; omega
  | succ f ih =>
    intro n hn
    rw [decDigitsAux]
    by_cases h10 : n < 10
    · rw [if_pos h10]
      have hall : ∀ m, m < 10 → (Char.ofNat ('0'.toNat + m)).isDigit = true ∧
          digitsToNat [Char.ofNat ('0'.toNat + m)] = m := by decide
      refine ⟨by simp, ?_, (hall n h10).2⟩
      intro c hc
      rw [List.mem_singleton] at hc
      rw [hc]
      exact (hall n h10).1
    · rw [if_neg h10]
      have hdiv : n / 10 < f := by
        have h1 : n / 10 < n := Nat.div_lt_self (by omega) (by norm_num)
        omega
      obtain ⟨ihne, ihdig, ihval⟩ := ih (n / 10) hdiv
      have hm : n % 10 < 10 := Nat.mod_lt _ (by norm_num)
      have hall : ∀ m, m < 10 → (Char.ofNat ('0'.toNat + m)).isDigit = true ∧
          (Char.ofNat ('0'.toNat + m)).toNat - '0'.toNat = m := by decide
      refine ⟨by simp, ?_, ?_⟩
      · intro c hc
        rcases List.mem_append.mp hc with hc | hc
        · exact ihdig c hc
        · rw [List.mem_singleton] at hc
          rw [hc]
          exact (hall _ hm).1
      · unfold digitsToNat
        rw [List.foldl_append]
        unfold digitsToNat at ihval
        rw [ihval]
        simp only [List.foldl_cons, List.foldl_nil]
        rw [(hall _ hm).2]
        omega

theorem decDigits_ne_nil (n : Nat) : decDigits n ≠ [] :=
  (decDigitsAux_spec (n + 1) n (by omega)).1

theorem decDigits_all_digit (n : Nat) : ∀ c ∈ decDigits n, c.isDigit :=
  (decDigitsAux_spec (n + 1) n (by omega)).2.1

theorem digitsToNat_decDigits (n : Nat) : digitsToNat (decDigits n) = n :=
  (decDigitsAux_spec (n + 1) n (by omega)).2.2

theorem star_not_mem_decDigits (n : Nat) : '*' ∉ decDigits n := by
  intro h
  exact absurd (decDigits_all_digit n '*' h) (by decide)

theorem occursL_false_of_mem (q t : List Char) (c : Char) (hc : c ∈ q)
    (ht : c ∉ t) : occursL q t = false := by
  by_contra h
  rw [Bool.not_eq_false] at h
  exact ht (mem_of_occursL q t h c hc)

theorem occursL_append_star (q a t : List Char)
    (hq : '*' ∈ q) (ht : '*' ∉ t)
    (ha : occursL q a = false)
    (hsp : ∀ k, k < q.length → '*' ∈ q.drop k ∨ a.drop (a.length - k) ≠ q.take k) :
    occursL q (a ++ t) = false := by
  by_contra h
  rw [Bool.not_eq_false] at h
  rcases occursL_append_cases q a t h with h1 | h1 | ⟨k, hk0, hkq, ⟨x, hx⟩, ⟨y, hy⟩⟩
  · rw [h1] at ha; simp at ha
  · exact ht (mem_of_occursL q t h1 '*' hq)
  · rcases hsp k hkq with hstar | hne
    · refine ht ?_
      rw [hy]
      exact List.mem_append_left y hstar
    · apply hne
      have hxl : x.length = a.length - k := by
        rw [hx, List.length_append, List.length_take]
        omega
      rw [← hxl, hx, List.drop_left]

theorem listStarts_append_self (p r : List Char) : listStarts p (p ++ r) = true :=
  (listStarts_iff p (p ++ r)).mpr ⟨r, rfl⟩

theorem listStarts_take_mono (p l : List Char) (k : Nat)
    (h : listStarts p l = true) : listStarts (p.take k) (l.take k) = true := by
  rcases (listStarts_iff p l).mp h with ⟨t, rfl⟩
  rw [List.take_append_eq_append_take]
  by_cases hk : k ≤ p.length
  · rw [show k - p.length = 0 by omega, List.take_zero, List.append_nil]
    exact (listStarts_iff _ _).mpr ⟨[], (List.append_nil _).symm⟩
  · rw [List.take_of_length_le (by omega)]
    exact listStarts_append_self p _

theorem listStarts_false_of_take (p l : List Char) (k : Nat)
    (h : listStarts (p.take k) (l.take k) = false) : listStarts p l = false := by
  by_contra h2
  rw [Bool.not_eq_false] at h2
  rw [listStarts_take_mono p l k h2] at h
  exact absurd h (by simp)

theorem takeWhile_all_append (p : α → Bool) (xs ys : List α)
    (hx : ∀ x ∈ xs, p x = true) (hy : ∀ y, ys.head? = some y → p y = false) :
    (xs ++ ys).takeWhile p = xs ∧ (xs ++ ys).dropWhile p = ys := by
  induction xs with
  | nil =>
    simp only [List.nil_append]
    cases ys with
    | nil => simp [List.takeWhile, List.dropWhile]
    | cons y ys' =>
      have := hy y rfl
      rw [List.takeWhile_cons, List.dropWhile_cons, this]
      simp
  | cons x xs' ih =>
    have hpx := hx x (by simp)
    rw [List.cons_append, List.takeWhile_cons, List.dropWhile_cons, hpx]
    simp only [if_true]
    obtain ⟨h1, h2⟩ := ih (fun x' hx' => hx x' (by simp [hx'])) 
    rw [h1, h2]
    simp

theorem scanCount_none (l : List Char)
    (h : occursL "**Count:** ".data l = false) : scanCount l = none := by
  induction l with
  | nil => rfl
  | cons c cs ih =>
    rw [occursL, Bool.or_eq_false_iff] at h
    rw [scanCount, if_neg (by simp [h.1]), ih h.2]

theorem scanAfter_none (pat : List Char) (l : List Char)
    (h : occursL pat l = false) : scanAfter pat l = none := by
  induction l with
  | nil => rfl
  | cons c cs ih =>
    rw [occursL, Bool.or_eq_false_iff] at h
    rw [scanAfter, if_neg (by simp [h.1]), ih h.2]

theorem takeWhile_all (p : α → Bool) (xs : List α) (hx : ∀ x ∈ xs, p x = true) :
    xs.takeWhile p = xs := by
  have := takeWhile_all_append p xs [] hx (by intro y hy; simp at hy)
  rw [List.append_nil] at this
  exact this.1

theorem scanAfter_self (pat rest : List Char) (hp : pat ≠ []) (hne : rest ≠ []) :
    scanAfter pat (pat ++ rest) = some rest := by
  cases pat with
  | nil => exact absurd rfl hp
  | cons c p =>
    rw [List.cons_append, scanAfter,
      if_pos (by rw [← List.cons_append]; exact listStarts_append_self _ _)]
    rw [← List.cons_append, List.drop_left]
    cases rest with
    | nil => exact absurd rfl hne
    | cons r rs => rfl

theorem scanCount_cons_miss (c : Char) (l : List Char)
    (h : listStarts "**Count:** ".data (c :: l) = false) :
    scanCount (c :: l) = scanCount l := by
  rw [scanCount, if_neg (by simp [h])]

theorem scanCount_pat_digits (n : Nat) :
    scanCount ("**Count:** ".data ++ decDigits n) = some n := by
  rw [show "**Count:** ".data ++ decDigits n =
    '*' :: ("*Count:** ".data ++ decDigits n) from rfl]
  rw [scanCount, if_pos (by
    rw [show '*' :: ("*Count:** ".data ++ decDigits n) =
      "**Count:** ".data ++ decDigits n from rfl]
    exact listStarts_append_self _ _)]
  rw [show ("*Count:** ".data ++ decDigits n).drop 10 =
    ("*Count:** ".data ++ decDigits n).drop ("*Count:** ".data).length from rfl,
    List.drop_left, takeWhile_all _ _ (decDigits_all_digit n)]
  rcases hd : decDigits n with _ | ⟨d, ds⟩
  · exact absurd hd (decDigits_ne_nil n)
  · show some (digitsToNat (d :: ds)) = some n
    rw [← hd, digitsToNat_decDigits]

theorem scanCount_count_line (n : Nat) :
    scanCount ("- **Count:** " ++ natToDec n).data = some n := by
  have e1 : ("- **Count:** " ++ natToDec n).data =
      '-' :: ' ' :: ("**Count:** ".data ++ decDigits n) := by
    rw [String.data_append]
    rfl
  rw [e1,
    scanCount_cons_miss _ _ (by
      apply listStarts_false_of_take _ _ 1
      show listStarts ['*'] ['-'] = false
      decide),
    scanCount_cons_miss _ _ (by
      apply listStarts_false_of_take _ _ 1
      show listStarts ['*'] [' '] = false
      decide),
    scanCount_pat_digits]

theorem strEnds_occurs (suf s : String) (h : strEnds suf s = true) :
    occursL suf.data s.data = true := by
  unfold strEnds at h
  rcases (listStarts_iff _ _).mp h with ⟨t, ht⟩
  have h2 := congrArg List.reverse ht
  rw [List.reverse_reverse, List.reverse_append, List.reverse_reverse] at h2
  exact (occursL_iff _ _).mpr ⟨t.reverse, [], by rw [h2, List.append_nil]⟩

theorem strEnds_false_of_no_occ (suf s : String)
    (h : occursL suf.data s.data = false) : strEnds suf s = false := by
  by_contra h2
  rw [Bool.not_eq_false] at h2
  rw [strEnds_occurs suf s h2] at h
  simp at h

theorem mem_intercalate (c : Char) (s : List Char) (xs : List (List Char))
    (h : c ∈ List.intercalate s xs) : (∃ x ∈ xs, c ∈ x) ∨ c ∈ s := by
  induction xs with
  | nil => rw [intercalate_nil_eq] at h; simp at h
  | cons x xs ih =>
    cases xs with
    | nil => rw [intercalate_one] at h; exact Or.inl ⟨x, by simp, h⟩
    | cons y t =>
      rw [intercalate_two] at h
      rcases List.mem_append.mp h with h1 | h1
      · exact Or.inl ⟨x, by simp, h1⟩
      · rcases List.mem_append.mp h1 with h2 | h2
        · exact Or.inr h2
        · rcases ih h2 with ⟨x', hx', hc⟩ | h3
          · exact Or.inl ⟨x', by simp [hx'], hc⟩
          · exact Or.inr h3

theorem star_not_mem_join (xs : List String) (hx : ∀ x ∈ xs, '*' ∉ x.data) :
    '*' ∉ (pyJoin ", " xs).data := by
  intro h
  have h' : '*' ∈ List.intercalate ", ".data (xs.map String.data) := h
  rcases mem_intercalate _ _ _ h' with ⟨x, hxm, hc⟩ | hs
  · rcases List.mem_map.mp hxm with ⟨x0, hx0, rfl⟩
    exact hx x0 hx0 hc
  · exact absurd hs (by decide)

theorem data_ne_nil_of_ne_empty (s : String) (h : s ≠ "") : s.data ≠ [] := by
  intro hd
  exact h (String.ext hd)

theorem join_ne_nil (xs : List String) (hne : xs ≠ []) (h0 : ∀ x ∈ xs, x ≠ "") :
    (pyJoin ", " xs).data ≠ [] := by
  cases xs with
  | nil => exact absurd rfl hne
  | cons x t =>
    cases t with
    | nil =>
      show List.intercalate ", ".data [x.data] ≠ []
      rw [intercalate_one]
      exact data_ne_nil_of_ne_empty x (h0 x (by simp))
    | cons y t' =>
      show List.intercalate ", ".data (x.data :: y.data :: t'.map String.data) ≠ []
      rw [intercalate_two]
      simp only [ne_eq, List.append_eq_nil, not_and]
      intro hx
      exact absurd hx (data_ne_nil_of_ne_empty x (h0 x (by simp)))

theorem splitCharL_ne_nil (c : Char) (l : List Char) : splitCharL c l ≠ [] := by
  induction l with
  | nil => simp [splitCharL]
  | cons a t ih =>
    cases h : splitCharL c t with
    | nil => exact absurd h ih
    | cons ch rest =>
      rw [splitCharL, h]
      show (if (a == c) = true then [] :: ch :: rest else (a :: ch) :: rest) ≠ []
      split <;> simp

theorem splitCharL_cons_sep (c : Char) (l : List Char) :
    splitCharL c (c :: l) = [] :: splitCharL c l := by
  cases h : splitCharL c l with
  | nil => exact absurd h (splitCharL_ne_nil c l)
  | cons ch rest =>
    rw [splitCharL, h]
    show (if (c == c) = true then [] :: ch :: rest else (c :: ch) :: rest)
      = [] :: ch :: rest
    rw [if_pos (by simp)]

theorem splitCharL_cons_ne (c a : Char) (l : List Char) (h : a ≠ c) :
    splitCharL c (a :: l) =
      (a :: (splitCharL c l).headI) :: (splitCharL c l).tail := by
  cases hs : splitCharL c l with
  | nil => exact absurd hs (splitCharL_ne_nil c l)
  | cons ch rest =>
    rw [splitCharL, hs]
    show (if (a == c) = true then [] :: ch :: rest else (a :: ch) :: rest)
      = (a :: (ch :: rest).headI) :: (ch :: rest).tail
    rw [if_neg (by simp [h])]
    simp [List.headI]

theorem splitCharL_no_sep (c : Char) (a : List Char) (ha : c ∉ a) :
    splitCharL c a = [a] := by
  induction a with
  | nil => rfl
  | cons x t ih =>
    have hx : x ≠ c := by intro e; exact ha (by simp [e])
    have ht : c ∉ t := fun m => ha (List.mem_cons_of_mem _ m)
    rw [splitCharL_cons_ne c x t hx, ih ht]
    simp [List.headI]

theorem splitCharL_append_sep (c : Char) (a l : List Char) (ha : c ∉ a) :
    splitCharL c (a ++ c :: l) = a :: splitCharL c l := by
  induction a with
  | nil => simpa using splitCharL_cons_sep c l
  | cons x t ih =>
    have hx : x ≠ c := by intro e; exact ha (by simp [e])
    have ht : c ∉ t := fun m => ha (List.mem_cons_of_mem _ m)
    rw [List.cons_append, splitCharL_cons_ne c x _ hx, ih ht]
    simp [List.headI]

theorem pyStrip_cons_space (l : List Char) :
    pyStrip ⟨' ' :: l⟩ = pyStrip ⟨l⟩ := by
  show (⟨pyStripL (' ' :: l)⟩ : String) = ⟨pyStripL l⟩
  unfold pyStripL
  rw [List.dropWhile_cons_of_pos (by decide)]

theorem split_join_comma (xs : List String) (hne : xs ≠ [])
    (hx : ∀ x ∈ xs, ',' ∉ x.data ∧ pyStrip x = x) :
    (splitCharL ',' (pyJoin ", " xs).data).map
      (fun r => pyStrip (⟨r⟩ : String)) = xs := by
  induction xs with
  | nil => exact absurd rfl hne
  | cons x t ih =>
    cases t with
    | nil =>
      show (splitCharL ',' (List.intercalate ", ".data [x.data])).map _ = [x]
      rw [intercalate_one, splitCharL_no_sep ',' x.data (hx x (by simp)).1]
      simp only [List.map_cons, List.map_nil]
      rw [show (⟨x.data⟩ : String) = x from rfl, (hx x (by simp)).2]
    | cons y t' =>
      show (splitCharL ','
        (List.intercalate ", ".data (x.data :: y.data :: t'.map String.data))).map _
          = x :: y :: t'
      rw [intercalate_two,
        show ", ".data ++ List.intercalate ", ".data (y.data :: t'.map String.data)
          = ',' :: (' ' :: List.intercalate ", ".data (y.data :: t'.map String.data))
          from rfl,
        splitCharL_append_sep ',' x.data _ (hx x (by simp)).1, List.map_cons]
      have ihr : (splitCharL ','
          (List.intercalate ", ".data (y.data :: t'.map String.data))).map
            (fun r => pyStrip (⟨r⟩ : String)) = y :: t' :=
        ih (by simp) (fun x' hx' => hx x' (by simp [hx']))
      rcases hS : splitCharL ','
          (List.intercalate ", ".data (y.data :: t'.map String.data))
        with _ | ⟨s0, srest⟩
      · exact absurd hS (splitCharL_ne_nil _ _)
      · rw [hS, List.map_cons] at ihr
        rw [splitCharL_cons_ne ',' ' ' _ (by decide), hS]
        simp only [List.headI, List.tail, List.map_cons]
        rw [pyStrip_cons_space s0]
        rw [show (⟨x.data⟩ : String) = x from rfl, (hx x (by simp)).2]
        exact congrArg (x :: ·) ihr

theorem parseHeader_mk (c : Char) (R : List Char) :
    parseHeader ⟨'#' :: '#' :: '#' :: ' ' :: c :: ' ' :: R⟩ = parseHeaderRest c R :=
  rfl

theorem parseHeader_none_of_head (l : String)
    (h : ∀ c, l.data.head? = some c → c ≠ '#') : parseHeader l = none := by
  unfold parseHeader
  split
  · rename_i heq
    exact absurd rfl (h '#' (by rw [heq]; rfl))
  · rfl

theorem parseHeaderRest_build (c : Char) (st : PatternStatus)
    (hic : iconStatus c = some st) (ds : List Char) (nm : String)
    (hds : ds ≠ []) (hdig : ∀ x ∈ ds, x.isDigit = true) (hnm : nm ≠ "") :
    parseHeaderRest c ("PATTERN-".data ++ (ds ++ (':' :: ' ' :: nm.data)))
      = some (st, ⟨"PATTERN-".data ++ ds⟩, nm) := by
  have hstart : listStarts "PATTERN-".data
      ("PATTERN-".data ++ (ds ++ (':' :: ' ' :: nm.data))) = true :=
    listStarts_append_self _ _
  have hdrop : ("PATTERN-".data ++ (ds ++ (':' :: ' ' :: nm.data))).drop 8
      = ds ++ (':' :: ' ' :: nm.data) := by
    rw [show (8 : Nat) = ("PATTERN-".data).length from rfl, List.drop_left]
  have htw := takeWhile_all_append Char.isDigit ds (':' :: ' ' :: nm.data) hdig
    (by intro y hy; injection hy with hy1; rw [← hy1]; rfl)
  simp only [parseHeaderRest, hic, hstart, hdrop, htw.1, htw.2]
  rw [if_neg hds]
  show (if nm.data = [] then none
    else some (st, (⟨"PATTERN-".data ++ ds⟩ : String), (⟨nm.data⟩ : String)))
      = some (st, (⟨"PATTERN-".data ++ ds⟩ : String), nm)
  rw [if_neg (data_ne_nil_of_ne_empty nm hnm)]

theorem parseHeader_format (st : PatternStatus) (ds : List Char) (nm : String)
    (hds : ds ≠ []) (hdig : ∀ x ∈ ds, x.isDigit = true) (hnm : nm ≠ "") :
    parseHeader ("### " ++ statusIcon st ++ " "
        ++ (⟨"PATTERN-".data ++ ds⟩ : String) ++ ": " ++ nm)
      = some (st, ⟨"PATTERN-".data ++ ds⟩, nm) := by
  obtain ⟨c, hic, hicon⟩ :
      ∃ c, iconStatus c = some st ∧ statusIcon st = (⟨[c]⟩ : String) := by
    cases st
    · exact ⟨'⚪', rfl, rfl⟩
    · exact ⟨'🟡', rfl, rfl⟩
    · exact ⟨'✅', rfl, rfl⟩
    · exact ⟨'⛔', rfl, rfl⟩
  have hdata : ("### " ++ statusIcon st ++ " "
      ++ (⟨"PATTERN-".data ++ ds⟩ : String) ++ ": " ++ nm).data
      = '#' :: '#' :: '#' :: ' ' :: c :: ' '
        :: ("PATTERN-".data ++ (ds ++ (':' :: ' ' :: nm.data))) := by
    rw [hicon]
    simp [String.data_append, List.append_assoc]
  rw [String.ext hdata, parseHeader_mk]
  exact parseHeaderRest_build c st hic ds nm hds hdig hnm

theorem dash_data (s : String) : ("- " ++ s).data = '-' :: ' ' :: s.data := by
  simp [String.data_append]

theorem dashLine_dash (s : String) (h : s ≠ "") : dashLine ("- " ++ s) = true := by
  unfold dashLine
  rw [dash_data]
  rcases hd : s.data with _ | ⟨c, cs⟩
  · exact absurd hd (data_ne_nil_of_ne_empty s h)
  · rfl

theorem dash_drop (s : String) : (⟨("- " ++ s).data.drop 2⟩ : String) = s := by
  rw [dash_data]
  rfl

theorem findSkills_cons_miss (l : String) (ls : List String)
    (h : strEnds "**Affected Skills:**" l = false) :
    findSkills (l :: ls) = findSkills ls := by
  rw [findSkills, if_neg (by simp [h])]

theorem findSkills_at (skills rest : List String)
    (hsk : ∀ s ∈ skills, s ≠ "") (hne : skills ≠ []) :
    findSkills ("**Affected Skills:**"
        :: (skills.map (fun s => "- " ++ s) ++ "" :: rest))
      = some skills := by
  have htw := takeWhile_all_append dashLine (skills.map (fun s => "- " ++ s))
    ("" :: rest)
    (by
      intro x hx
      rcases List.mem_map.mp hx with ⟨s, hs, rfl⟩
      exact dashLine_dash s (hsk s hs))
    (by intro y hy; injection hy with hy1; rw [← hy1]; rfl)
  rw [findSkills, if_pos (by decide)]
  rw [htw.1]
  rcases hm : skills.map (fun s => "- " ++ s) with _ | ⟨m0, ms⟩
  · rw [List.map_eq_nil_iff] at hm
    exact absurd hm hne
  · show some ((m0 :: ms).map (fun l' => (⟨l'.data.drop 2⟩ : String)))
      = some skills
    rw [← hm, List.map_map]
    congr 1
    calc skills.map ((fun l' => (⟨l'.data.drop 2⟩ : String)) ∘ (fun s => "- " ++ s))
        = skills.map id := by
          apply List.map_congr_left
          intro s _
          exact dash_drop s
      _ = skills := List.map_id skills

theorem findSkills_hit_empty (rest : List String) :
    findSkills ("**Affected Skills:**" :: "" :: rest) = findSkills rest := by
  rw [findSkills, if_pos (by decide)]
  show (match ("" :: rest).takeWhile dashLine with
    | [] => findSkills ("" :: rest)
    | run => some (run.map (fun l' => (⟨l'.data.drop 2⟩ : String)))) = findSkills rest
  rw [List.takeWhile_cons_of_neg (by decide)]
  show findSkills ("" :: rest) = findSkills rest
  exact findSkills_cons_miss _ _ (by decide)

theorem blocksAux_skip (junk ls : List String)
    (hj : ∀ l ∈ junk, parseHeader l = none) :
    blocksAux (junk ++ ls) none = blocksAux ls none := by
  induction junk with
  | nil => rfl
  | cons l junk' ih =>
    rw [List.cons_append, blocksAux, hj l (by simp)]
    exact ih (fun l' hl' => hj l' (by simp [hl']))

theorem blocksAux_acc (body : List String) (ls : List String)
    (h : PatternStatus × String × String) (acc : List String)
    (hb : ∀ l ∈ body, parseHeader l = none) :
    blocksAux (body ++ ls) (some (h, acc))
      = blocksAux ls (some (h, body.reverse ++ acc)) := by
  induction body generalizing acc with
  | nil => rfl
  | cons l body' ih =>
    rw [List.cons_append, blocksAux, hb l (by simp)]
    rw [ih (l :: acc) (fun l' hl' => hb l' (by simp [hl']))]
    simp

theorem blocksAux_header_none (l : String) (ls : List String)
    (h' : PatternStatus × String × String) (hl : parseHeader l = some h') :
    blocksAux (l :: ls) none = blocksAux ls (some (h', [])) := by
  rw [blocksAux, hl]

theorem blocksAux_header_some (l : String) (ls : List String)
    (h h' : PatternStatus × String × String) (acc : List String)
    (hl : parseHeader l = some h') :
    blocksAux (l :: ls) (some (h, acc))
      = (h, acc.reverse) :: blocksAux ls (some (h', [])) := by
  rw [blocksAux, hl]

theorem sectionJunk_no_header : ∀ l ∈ sectionJunk, parseHeader l = none := by
  decide

theorem sectionJunk_clean : ∀ l ∈ sectionJunk,
    occursL "**Count:** ".data l.data = false ∧
    occursL "**Affected Skills:**".data l.data = false ∧
    occursL "**Refinement IDs:** ".data l.data = false ∧
    occursL "**Projects:** ".data l.data = false := by
  decide

theorem findSome?_cons_none (f : α → Option β) (a : α) (l : List α)
    (h : f a = none) : List.findSome? f (a :: l) = List.findSome? f l := by
  rw [List.findSome?_cons, h]

theorem findSome?_cons_some (f : α → Option β) (a : α) (l : List α) (b : β)
    (h : f a = some b) : List.findSome? f (a :: l) = some b := by
  rw [List.findSome?_cons, h]

theorem findSome?_all_none (f : α → Option β) (l : List α)
    (h : ∀ x ∈ l, f x = none) : List.findSome? f l = none := by
  induction l with
  | nil => rfl
  | cons a t ih =>
    rw [findSome?_cons_none f a t (h a (by simp))]
    exact ih (fun x hx => h x (by simp [hx]))

theorem findSome?_append_left_none (f : α → Option β) (l₁ l₂ : List α)
    (h : ∀ x ∈ l₁, f x = none) :
    List.findSome? f (l₁ ++ l₂) = List.findSome? f l₂ := by
  induction l₁ with
  | nil => rfl
  | cons a t ih =>
    rw [List.cons_append, findSome?_cons_none f a _ (h a (by simp))]
    exact ih (fun x hx => h x (by simp [hx]))

theorem findSkills_none_of_all (L : List String)
    (h : ∀ l ∈ L, occursL "**Affected Skills:**".data l.data = false) :
    findSkills L = none := by
  induction L with
  | nil => rfl
  | cons l ls ih =>
    rw [findSkills_cons_miss l ls (strEnds_false_of_no_occ _ _ (h l (by simp)))]
    exact ih (fun x hx => h x (by simp [hx]))

theorem line_no_occ (q : List Char) (a t : String)
    (hq : '*' ∈ q) (ht : '*' ∉ t.data)
    (ha : occursL q a.data = false)
    (hsp : ∀ k, k < q.length →
      '*' ∈ q.drop k ∨ a.data.drop (a.data.length - k) ≠ q.take k) :
    occursL q (a ++ t).data = false := by
  rw [String.data_append]
  exact occursL_append_star q a.data t.data hq ht ha hsp

theorem status_line_no_occ : ∀ st : PatternStatus,
    occursL "**Count:** ".data ("- **Status:** " ++ st.value).data = false ∧
    occursL "**Affected Skills:**".data ("- **Status:** " ++ st.value).data = false ∧
    occursL "**Refinement IDs:** ".data ("- **Status:** " ++ st.value).data = false ∧
    occursL "**Projects:** ".data ("- **Status:** " ++ st.value).data = false := by
  intro st
  cases st <;> exact (by decide)

theorem loadBlock_key (p : Pattern) (junk : List String) (now : String)
    (hp : wfPattern p) (hj : ∀ l ∈ junk, l ∈ sectionJunk) :
    patKey (loadBlock (p.status, p.id, p.name) ((format_pattern p).tail ++ junk) now)
      = patKey p := by
  obtain ⟨hid, hnm, hnmne, hdesc, hsk, hrefs, hproj, hfs, hls⟩ := hp
  have hprojstar : '*' ∉ (pyJoin ", " p.projects).data :=
    star_not_mem_join _ (fun x hx => (hproj x hx).1.1)
  have hrefstar : '*' ∉ (pyJoin ", " p.refinement_ids).data :=
    star_not_mem_join _ (fun x hx => (hrefs x hx).1.1)
  have hcntstar : '*' ∉ (natToDec p.count).data := star_not_mem_decDigits p.count
  have hbody : (format_pattern p).tail ++ junk =
      ("- **First seen:** " ++ p.first_seen) ::
      ("- **Last seen:** " ++ p.last_seen) ::
      ("- **Count:** " ++ natToDec p.count) ::
      ("- **Status:** " ++ p.status.value) ::
      "" ::
      "**Affected Skills:**" ::
      (p.affected_skills.map (fun s => "- " ++ s) ++
        ("" :: "**Description:**" :: p.description :: "" ::
          ((if p.projects = [] then []
            else ["**Projects:** " ++ pyJoin ", " p.projects]) ++
            ((if p.refinement_ids = [] then []
              else ["**Refinement IDs:** " ++ pyJoin ", " p.refinement_ids]) ++
              ("" :: "---" :: "" :: junk))))) := by
    simp [format_pattern, List.append_assoc]
  rw [hbody]
  -- count
  have hG1 : ∀ X : List String,
      List.findSome? (fun l => scanCount l.data)
        (("- **First seen:** " ++ p.first_seen) ::
          ("- **Last seen:** " ++ p.last_seen) ::
          ("- **Count:** " ++ natToDec p.count) :: X) = some p.count := by
    intro X
    rw [findSome?_cons_none (fun l : String => scanCount l.data) _ _ (scanCount_none _
        (line_no_occ "**Count:** ".data "- **First seen:** " p.first_seen
          (by decide) hfs.1 (by decide) (by decide))),
      findSome?_cons_none (fun l : String => scanCount l.data) _ _ (scanCount_none _
        (line_no_occ "**Count:** ".data "- **Last seen:** " p.last_seen
          (by decide) hls.1 (by decide) (by decide)))]
    exact findSome?_cons_some (fun l : String => scanCount l.data) _ _ _ (scanCount_count_line p.count)
  -- skills
  have hG2 : (findSkills
      (("- **First seen:** " ++ p.first_seen) ::
        ("- **Last seen:** " ++ p.last_seen) ::
        ("- **Count:** " ++ natToDec p.count) ::
        ("- **Status:** " ++ p.status.value) ::
        "" ::
        "**Affected Skills:**" ::
        (p.affected_skills.map (fun s => "- " ++ s) ++
          ("" :: "**Description:**" :: p.description :: "" ::
            ((if p.projects = [] then []
              else ["**Projects:** " ++ pyJoin ", " p.projects]) ++
              ((if p.refinement_ids = [] then []
                else ["**Refinement IDs:** " ++ pyJoin ", " p.refinement_ids]) ++
                ("" :: "---" :: "" :: junk))))))).getD [] = p.affected_skills := by
    rw [findSkills_cons_miss _ _ (strEnds_false_of_no_occ _ _
        (line_no_occ "**Affected Skills:**".data "- **First seen:** " p.first_seen
          (by decide) hfs.1 (by decide) (by decide))),
      findSkills_cons_miss _ _ (strEnds_false_of_no_occ _ _
        (line_no_occ "**Affected Skills:**".data "- **Last seen:** " p.last_seen
          (by decide) hls.1 (by decide) (by decide))),
      findSkills_cons_miss _ _ (strEnds_false_of_no_occ _ _
        (line_no_occ "**Affected Skills:**".data "- **Count:** " (natToDec p.count)
          (by decide) hcntstar (by decide) (by decide))),
      findSkills_cons_miss _ _ (strEnds_false_of_no_occ _ _
        (status_line_no_occ p.status).2.1),
      findSkills_cons_miss _ _ (by decide)]
    cases hskE : p.affected_skills with
    | cons s0 srest =>
      rw [findSkills_at (s0 :: srest) _
        (fun s hs => (hsk s (by rw [hskE]; exact hs)).2) (by simp)]
      rfl
    | nil =>
      rw [List.map_nil, List.nil_append, findSkills_hit_empty,
        findSkills_cons_miss _ _ (by decide),
        findSkills_cons_miss _ _ (strEnds_false_of_no_occ _ _
          (occursL_false_of_mem _ _ '*' (by decide) hdesc.1)),
        findSkills_cons_miss _ _ (by decide)]
      have stepP : findSkills
          ((if p.projects = [] then []
            else ["**Projects:** " ++ pyJoin ", " p.projects]) ++
            ((if p.refinement_ids = [] then []
              else ["**Refinement IDs:** " ++ pyJoin ", " p.refinement_ids]) ++
              ("" :: "---" :: "" :: junk))) = none := by
        have tailNone : findSkills ("" :: "---" :: "" :: junk) = none := by
          rw [findSkills_cons_miss _ _ (by decide),
            findSkills_cons_miss _ _ (by decide),
            findSkills_cons_miss _ _ (by decide)]
          exact findSkills_none_of_all junk
            (fun l hl => (sectionJunk_clean l (hj l hl)).2.1)
        have stepR : findSkills
            ((if p.refinement_ids = [] then []
              else ["**Refinement IDs:** " ++ pyJoin ", " p.refinement_ids]) ++
              ("" :: "---" :: "" :: junk)) = none := by
          by_cases hR : p.refinement_ids = []
          · rw [if_pos hR, List.nil_append]; exact tailNone
          · rw [if_neg hR, List.singleton_append,
              findSkills_cons_miss _ _ (strEnds_false_of_no_occ _ _
                (line_no_occ "**Affected Skills:**".data "**Refinement IDs:** "
                  (pyJoin ", " p.refinement_ids)
                  (by decide) hrefstar (by decide) (by decide)))]
            exact tailNone
        by_cases hP : p.projects = []
        · rw [if_pos hP, List.nil_append]; exact stepR
        · rw [if_neg hP, List.singleton_append,
            findSkills_cons_miss _ _ (strEnds_false_of_no_occ _ _
              (line_no_occ "**Affected Skills:**".data "**Projects:** "
                (pyJoin ", " p.projects)
                (by decide) hprojstar (by decide) (by decide)))]
          exact stepR
      rw [stepP]
      rfl
  -- refinement ids
  have hG3 : parseAtoms (List.findSome?
      (fun l => scanAfter "**Refinement IDs:** ".data l.data)
      (("- **First seen:** " ++ p.first_seen) ::
        ("- **Last seen:** " ++ p.last_seen) ::
        ("- **Count:** " ++ natToDec p.count) ::
        ("- **Status:** " ++ p.status.value) ::
        "" ::
        "**Affected Skills:**" ::
        (p.affected_skills.map (fun s => "- " ++ s) ++
          ("" :: "**Description:**" :: p.description :: "" ::
            ((if p.projects = [] then []
              else ["**Projects:** " ++ pyJoin ", " p.projects]) ++
              ((if p.refinement_ids = [] then []
                else ["**Refinement IDs:** " ++ pyJoin ", " p.refinement_ids]) ++
                ("" :: "---" :: "" :: junk)))))))
      = p.refinement_ids := by
    rw [findSome?_cons_none (fun l : String => scanAfter "**Refinement IDs:** ".data l.data) _ _ (scanAfter_none _ _
        (line_no_occ "**Refinement IDs:** ".data "- **First seen:** " p.first_seen
          (by decide) hfs.1 (by decide) (by decide))),
      findSome?_cons_none (fun l : String => scanAfter "**Refinement IDs:** ".data l.data) _ _ (scanAfter_none _ _
        (line_no_occ "**Refinement IDs:** ".data "- **Last seen:** " p.last_seen
          (by decide) hls.1 (by decide) (by decide))),
      findSome?_cons_none (fun l : String => scanAfter "**Refinement IDs:** ".data l.data) _ _ (scanAfter_none _ _
        (line_no_occ "**Refinement IDs:** ".data "- **Count:** " (natToDec p.count)
          (by decide) hcntstar (by decide) (by decide))),
      findSome?_cons_none (fun l : String => scanAfter "**Refinement IDs:** ".data l.data) _ _ (scanAfter_none _ _
        (status_line_no_occ p.status).2.2.1),
      findSome?_cons_none (fun l : String => scanAfter "**Refinement IDs:** ".data l.data) _ _ (scanAfter_none _ _ (by decide)),
      findSome?_cons_none (fun l : String => scanAfter "**Refinement IDs:** ".data l.data) _ _ (scanAfter_none _ _ (by decide)),
      findSome?_append_left_none (fun l : String => scanAfter "**Refinement IDs:** ".data l.data) _ _ (by
        intro x hx
        rcases List.mem_map.mp hx with ⟨s, hs, rfl⟩
        exact scanAfter_none _ _
          (line_no_occ "**Refinement IDs:** ".data "- " s
            (by decide) (hsk s hs).1.1 (by decide) (by decide))),
      findSome?_cons_none (fun l : String => scanAfter "**Refinement IDs:** ".data l.data) _ _ (scanAfter_none _ _ (by decide)),
      findSome?_cons_none (fun l : String => scanAfter "**Refinement IDs:** ".data l.data) _ _ (scanAfter_none _ _ (by decide)),
      findSome?_cons_none (fun l : String => scanAfter "**Refinement IDs:** ".data l.data) _ _ (scanAfter_none _ _
        (occursL_false_of_mem _ _ '*' (by decide) hdesc.1)),
      findSome?_cons_none (fun l : String => scanAfter "**Refinement IDs:** ".data l.data) _ _ (scanAfter_none _ _ (by decide))]
    have stepP : List.findSome?
        (fun l => scanAfter "**Refinement IDs:** ".data l.data)
        ((if p.projects = [] then []
          else ["**Projects:** " ++ pyJoin ", " p.projects]) ++
          ((if p.refinement_ids = [] then []
            else ["**Refinement IDs:** " ++ pyJoin ", " p.refinement_ids]) ++
            ("" :: "---" :: "" :: junk))) =
        List.findSome? (fun l => scanAfter "**Refinement IDs:** ".data l.data)
          ((if p.refinement_ids = [] then []
            else ["**Refinement IDs:** " ++ pyJoin ", " p.refinement_ids]) ++
            ("" :: "---" :: "" :: junk)) := by
      by_cases hP : p.projects = []
      · rw [if_pos hP, List.nil_append]
      · rw [if_neg hP, List.singleton_append,
          findSome?_cons_none (fun l : String => scanAfter "**Refinement IDs:** ".data l.data) _ _ (scanAfter_none _ _
            (line_no_occ "**Refinement IDs:** ".data "**Projects:** "
              (pyJoin ", " p.projects)
              (by decide) hprojstar (by decide) (by decide)))]
    rw [stepP]
    cases hRE : p.refinement_ids with
    | nil =>
      rw [if_pos rfl, List.nil_append,
        findSome?_cons_none (fun l : String => scanAfter "**Refinement IDs:** ".data l.data) _ _ (scanAfter_none _ _ (by decide)),
        findSome?_cons_none (fun l : String => scanAfter "**Refinement IDs:** ".data l.data) _ _ (scanAfter_none _ _ (by decide)),
        findSome?_cons_none (fun l : String => scanAfter "**Refinement IDs:** ".data l.data) _ _ (scanAfter_none _ _ (by decide)),
        findSome?_all_none (fun l : String => scanAfter "**Refinement IDs:** ".data l.data) _
          (fun l hl => scanAfter_none _ _ (sectionJunk_clean l (hj l hl)).2.2.1)]
      rfl
    | cons r0 rrest =>
      rw [if_neg (by simp), List.singleton_append,
        findSome?_cons_some (fun l : String => scanAfter "**Refinement IDs:** ".data l.data) _ _ _ (by
          show scanAfter "**Refinement IDs:** ".data
            ("**Refinement IDs:** " ++ pyJoin ", " (r0 :: rrest)).data
            = some (pyJoin ", " (r0 :: rrest)).data
          rw [String.data_append]
          exact scanAfter_self _ _ (by decide)
            (join_ne_nil (r0 :: rrest) (by simp)
              (fun x hx => (hrefs x (by rw [hRE]; exact hx)).2.1)))]
      show (splitCharL ',' (pyJoin ", " (r0 :: rrest)).data).map
        (fun r => pyStrip (⟨r⟩ : String)) = r0 :: rrest
      exact split_join_comma (r0 :: rrest) (by simp)
        (fun x hx => ⟨(hrefs x (by rw [hRE]; exact hx)).2.2.1,
          (hrefs x (by rw [hRE]; exact hx)).2.2.2⟩)
  -- projects
  have hG4 : parseAtoms (List.findSome?
      (fun l : String => scanAfter "**Projects:** ".data l.data)
      (("- **First seen:** " ++ p.first_seen) ::
        ("- **Last seen:** " ++ p.last_seen) ::
        ("- **Count:** " ++ natToDec p.count) ::
        ("- **Status:** " ++ p.status.value) ::
        "" ::
        "**Affected Skills:**" ::
        (p.affected_skills.map (fun s => "- " ++ s) ++
          ("" :: "**Description:**" :: p.description :: "" ::
            ((if p.projects = [] then []
              else ["**Projects:** " ++ pyJoin ", " p.projects]) ++
              ((if p.refinement_ids = [] then []
                else ["**Refinement IDs:** " ++ pyJoin ", " p.refinement_ids]) ++
                ("" :: "---" :: "" :: junk)))))))
      = p.projects := by
    rw [findSome?_cons_none (fun l : String => scanAfter "**Projects:** ".data l.data) _ _ (scanAfter_none _ _
        (line_no_occ "**Projects:** ".data "- **First seen:** " p.first_seen
          (by decide) hfs.1 (by decide) (by decide))),
      findSome?_cons_none (fun l : String => scanAfter "**Projects:** ".data l.data) _ _ (scanAfter_none _ _
        (line_no_occ "**Projects:** ".data "- **Last seen:** " p.last_seen
          (by decide) hls.1 (by decide) (by decide))),
      findSome?_cons_none (fun l : String => scanAfter "**Projects:** ".data l.data) _ _ (scanAfter_none _ _
        (line_no_occ "**Projects:** ".data "- **Count:** " (natToDec p.count)
          (by decide) hcntstar (by decide) (by decide))),
      findSome?_cons_none (fun l : String => scanAfter "**Projects:** ".data l.data) _ _ (scanAfter_none _ _
        (status_line_no_occ p.status).2.2.2),
      findSome?_cons_none (fun l : String => scanAfter "**Projects:** ".data l.data) _ _ (scanAfter_none _ _ (by decide)),
      findSome?_cons_none (fun l : String => scanAfter "**Projects:** ".data l.data) _ _ (scanAfter_none _ _ (by decide)),
      findSome?_append_left_none (fun l : String => scanAfter "**Projects:** ".data l.data) _ _ (by
        intro x hx
        rcases List.mem_map.mp hx with ⟨s, hs, rfl⟩
        exact scanAfter_none _ _
          (line_no_occ "**Projects:** ".data "- " s
            (by decide) (hsk s hs).1.1 (by decide) (by decide))),
      findSome?_cons_none (fun l : String => scanAfter "**Projects:** ".data l.data) _ _ (scanAfter_none _ _ (by decide)),
      findSome?_cons_none (fun l : String => scanAfter "**Projects:** ".data l.data) _ _ (scanAfter_none _ _ (by decide)),
      findSome?_cons_none (fun l : String => scanAfter "**Projects:** ".data l.data) _ _ (scanAfter_none _ _
        (occursL_false_of_mem _ _ '*' (by decide) hdesc.1)),
      findSome?_cons_none (fun l : String => scanAfter "**Projects:** ".data l.data) _ _ (scanAfter_none _ _ (by decide))]
    by_cases hP : p.projects = []
    · rw [if_pos hP, List.nil_append]
      by_cases hR : p.refinement_ids = []
      · rw [if_pos hR, List.nil_append,
          findSome?_cons_none (fun l : String => scanAfter "**Projects:** ".data l.data) _ _ (scanAfter_none _ _ (by decide)),
          findSome?_cons_none (fun l : String => scanAfter "**Projects:** ".data l.data) _ _ (scanAfter_none _ _ (by decide)),
          findSome?_cons_none (fun l : String => scanAfter "**Projects:** ".data l.data) _ _ (scanAfter_none _ _ (by decide)),
          findSome?_all_none (fun l : String => scanAfter "**Projects:** ".data l.data) _
            (fun l hl => scanAfter_none _ _ (sectionJunk_clean l (hj l hl)).2.2.2),
          hP]
        rfl
      · rw [if_neg hR, List.singleton_append,
          findSome?_cons_none (fun l : String => scanAfter "**Projects:** ".data l.data) _ _ (scanAfter_none _ _
            (line_no_occ "**Projects:** ".data "**Refinement IDs:** "
              (pyJoin ", " p.refinement_ids)
              (by decide) hrefstar (by decide) (by decide))),
          findSome?_cons_none (fun l : String => scanAfter "**Projects:** ".data l.data) _ _ (scanAfter_none _ _ (by decide)),
          findSome?_cons_none (fun l : String => scanAfter "**Projects:** ".data l.data) _ _ (scanAfter_none _ _ (by decide)),
          findSome?_cons_none (fun l : String => scanAfter "**Projects:** ".data l.data) _ _ (scanAfter_none _ _ (by decide)),
          findSome?_all_none (fun l : String => scanAfter "**Projects:** ".data l.data) _
            (fun l hl => scanAfter_none _ _ (sectionJunk_clean l (hj l hl)).2.2.2),
          hP]
        rfl
    · rw [if_neg hP, List.singleton_append,
        findSome?_cons_some (fun l : String => scanAfter "**Projects:** ".data l.data) _ _ _ (by
          show scanAfter "**Projects:** ".data
            ("**Projects:** " ++ pyJoin ", " p.projects).data
            = some (pyJoin ", " p.projects).data
          rw [String.data_append]
          exact scanAfter_self _ _ (by decide)
            (join_ne_nil p.projects hP (fun x hx => (hproj x hx).2.1)))]
      show (splitCharL ',' (pyJoin ", " p.projects).data).map
        (fun r => pyStrip (⟨r⟩ : String)) = p.projects
      exact split_join_comma p.projects hP
        (fun x hx => ⟨(hproj x hx).2.2.1, (hproj x hx).2.2.2⟩)
  simp only [loadBlock, patKey]
  rw [hG1, hG2, hG3, hG4]
  rfl

/-- A saved document as an interleaving of scaffold chunks and pattern
blocks. -/
def renderItem : List String ⊕ Pattern → List String
  | Sum.inl js => js
  | Sum.inr p => format_pattern p

def renderScript (s : List (List String ⊕ Pattern)) : List String :=
  (s.map renderItem).flatten

/-- The scaffold lines following the current position up to the next
pattern block. -/
def scriptJunk : List (List String ⊕ Pattern) → List String
  | [] => []
  | Sum.inl js :: rest => js ++ scriptJunk rest
  | Sum.inr _ :: _ => []

/-- The block list the loader's regex recovers from a rendered script:
one block per pattern, holding the pattern's own lines plus the scaffold
up to the next header. -/
def scriptBlocks : List (List String ⊕ Pattern) →
    List ((PatternStatus × String × String) × List String)
  | [] => []
  | Sum.inl _ :: rest => scriptBlocks rest
  | Sum.inr p :: rest =>
    ((p.status, p.id, p.name), (format_pattern p).tail ++ scriptJunk rest)
      :: scriptBlocks rest

def scriptPats : List (List String ⊕ Pattern) → List Pattern
  | [] => []
  | Sum.inl _ :: rest => scriptPats rest
  | Sum.inr p :: rest => p :: scriptPats rest

theorem renderScript_cons (i : List String ⊕ Pattern)
    (s : List (List String ⊕ Pattern)) :
    renderScript (i :: s) = renderItem i ++ renderScript s := by
  simp [renderScript]

theorem scriptJunk_mem (s : List (List String ⊕ Pattern))
    (hJ : ∀ js, Sum.inl js ∈ s → ∀ l ∈ js, l ∈ sectionJunk) :
    ∀ l ∈ scriptJunk s, l ∈ sectionJunk := by
  induction s with
  | nil => intro l hl; simp [scriptJunk] at hl
  | cons i rest ih =>
    cases i with
    | inl js =>
      intro l hl
      rw [scriptJunk] at hl
      rcases List.mem_append.mp hl with h | h
      · exact hJ js (by simp) l h
      · exact ih (fun js' hjs' => hJ js' (by simp [hjs'])) l h
    | inr p => intro l hl; simp [scriptJunk] at hl

theorem parseHeader_append_none (a t : String) (x : Char)
    (hx : a.data.head? = some x) (hne : x ≠ '#') : parseHeader (a ++ t) = none := by
  apply parseHeader_none_of_head
  intro c hc
  rw [String.data_append] at hc
  cases ha : a.data with
  | nil => rw [ha] at hx; exact absurd hx (by simp)
  | cons y ys =>
    rw [ha] at hx hc
    simp only [List.head?_cons, Option.some.injEq] at hx
    rw [List.cons_append] at hc
    simp only [List.head?_cons, Option.some.injEq] at hc
    rw [← hc]
    exact fun he => hne (hx ▸ he)

theorem parseHeader_none_no_hash (s : String) (h : '#' ∉ s.data) :
    parseHeader s = none := by
  apply parseHeader_none_of_head
  intro c hc
  cases hs : s.data with
  | nil => rw [hs] at hc; exact absurd hc (by simp)
  | cons y ys =>
    rw [hs] at hc h
    simp only [List.head?_cons, Option.some.injEq] at hc
    intro he
    exact h (by rw [hc, he]; exact List.mem_cons_self _ _)

theorem parseHeader_format_pattern (p : Pattern) (hp : wfPattern p) :
    parseHeader ("### " ++ statusIcon p.status ++ " " ++ p.id ++ ": " ++ p.name)
      = some (p.status, p.id, p.name) := by
  obtain ⟨⟨hstart, hne8, hdig8⟩, hnm, hnmne, _⟩ := hp
  rcases (listStarts_iff _ _).mp hstart with ⟨t, ht⟩
  have hdrop : p.id.data.drop 8 = t := by
    rw [ht, show (8 : Nat) = ("PATTERN-".data).length from rfl, List.drop_left]
  have hidmk : p.id = ⟨"PATTERN-".data ++ t⟩ := String.ext ht
  rw [hidmk]
  exact parseHeader_format p.status t p.name (hdrop ▸ hne8) (hdrop ▸ hdig8) hnmne

theorem format_tail_no_header (p : Pattern) (hp : wfPattern p) :
    ∀ l ∈ (format_pattern p).tail, parseHeader l = none := by
  obtain ⟨hid, hnm, hnmne, hdesc, hsk, hrefs, hproj, hfs, hls⟩ := hp
  intro l hl
  simp only [format_pattern, List.cons_append, List.tail_cons, List.mem_append,
    List.mem_cons, List.mem_map, List.mem_singleton] at hl
  rcases hl with rfl | rfl | rfl | rfl | rfl | rfl |
    ((((hnil | ⟨s, hs, rfl⟩) | (rfl | rfl | rfl | rfl | hnil2)) | hP) | hR) |
    (rfl | rfl | rfl | hnil3)
  · exact parseHeader_append_none "- **First seen:** " p.first_seen '-' rfl (by decide)
  · exact parseHeader_append_none "- **Last seen:** " p.last_seen '-' rfl (by decide)
  · exact parseHeader_append_none "- **Count:** " (natToDec p.count) '-' rfl (by decide)
  · exact parseHeader_append_none "- **Status:** " p.status.value '-' rfl (by decide)
  · decide
  · decide
  · exact absurd hnil (by simp)
  · exact parseHeader_append_none "- " s '-' rfl (by decide)
  · decide
  · decide
  · exact parseHeader_none_no_hash p.description hdesc.2.1
  · decide
  · exact absurd hnil2 (by simp)
  · by_cases hPE : p.projects = []
    · rw [if_pos hPE] at hP
      exact absurd hP (by simp)
    · rw [if_neg hPE] at hP
      simp only [List.mem_singleton] at hP
      rw [hP]
      exact parseHeader_append_none "**Projects:** " (pyJoin ", " p.projects) '*' rfl
        (by decide)
  · by_cases hRE : p.refinement_ids = []
    · rw [if_pos hRE] at hR
      exact absurd hR (by simp)
    · rw [if_neg hRE] at hR
      simp only [List.mem_singleton] at hR
      rw [hR]
      exact parseHeader_append_none "**Refinement IDs:** "
        (pyJoin ", " p.refinement_ids) '*' rfl (by decide)
  · decide
  · decide
  · decide
  · exact absurd hnil3 (by simp)

theorem blocksAux_script_go (s : List (List String ⊕ Pattern))
    (hJ : ∀ js, Sum.inl js ∈ s → ∀ l ∈ js, l ∈ sectionJunk)
    (hW : ∀ p, Sum.inr p ∈ s → wfPattern p) :
    ∀ (h : PatternStatus × String × String) (acc : List String),
      blocksAux (renderScript s) (some (h, acc))
        = (h, acc.reverse ++ scriptJunk s) :: scriptBlocks s := by
  induction s with
  | nil =>
    intro h acc
    show [(h, acc.reverse)] = [(h, acc.reverse ++ scriptJunk [])]
    simp [scriptJunk]
  | cons item rest ih =>
    intro h acc
    cases item with
    | inl js =>
      rw [renderScript_cons]
      show blocksAux (js ++ renderScript rest) (some (h, acc)) = _
      rw [blocksAux_acc js _ h acc
        (fun l hl => sectionJunk_no_header l (hJ js (by simp) l hl))]
      rw [ih (fun js' hjs' => hJ js' (by simp [hjs']))
        (fun p hp => hW p (by simp [hp])) h (js.reverse ++ acc)]
      show _ = (h, acc.reverse ++ (js ++ scriptJunk rest)) :: scriptBlocks rest
      simp [List.append_assoc]
    | inr p =>
      rw [renderScript_cons]
      show blocksAux
        (("### " ++ statusIcon p.status ++ " " ++ p.id ++ ": " ++ p.name)
          :: ((format_pattern p).tail ++ renderScript rest)) (some (h, acc)) = _
      rw [blocksAux_header_some _ _ h (p.status, p.id, p.name) acc
        (parseHeader_format_pattern p (hW p (by simp)))]
      rw [blocksAux_acc _ _ _ [] (format_tail_no_header p (hW p (by simp)))]
      rw [ih (fun js' hjs' => hJ js' (by simp [hjs']))
        (fun p' hp' => hW p' (by simp [hp'])) (p.status, p.id, p.name)
        ((format_pattern p).tail.reverse ++ [])]
      show _ = (h, acc.reverse ++ scriptJunk (Sum.inr p :: rest))
        :: ((p.status, p.id, p.name),
            (format_pattern p).tail ++ scriptJunk rest) :: scriptBlocks rest
      simp [scriptJunk]
  
theorem blocksAux_script (s : List (List String ⊕ Pattern))
    (hJ : ∀ js, Sum.inl js ∈ s → ∀ l ∈ js, l ∈ sectionJunk)
    (hW : ∀ p, Sum.inr p ∈ s → wfPattern p) :
    blocksAux (renderScript s) none = scriptBlocks s := by
  induction s with
  | nil => rfl
  | cons item rest ih =>
    cases item with
    | inl js =>
      rw [renderScript_cons]
      show blocksAux (js ++ renderScript rest) none = _
      rw [blocksAux_skip js _
        (fun l hl => sectionJunk_no_header l (hJ js (by simp) l hl))]
      exact ih (fun js' hjs' => hJ js' (by simp [hjs']))
        (fun p hp => hW p (by simp [hp]))
    | inr p =>
      rw [renderScript_cons]
      show blocksAux
        (("### " ++ statusIcon p.status ++ " " ++ p.id ++ ": " ++ p.name)
          :: ((format_pattern p).tail ++ renderScript rest)) none = _
      rw [blocksAux_header_none _ _ (p.status, p.id, p.name)
        (parseHeader_format_pattern p (hW p (by simp)))]
      rw [blocksAux_acc _ _ _ [] (format_tail_no_header p (hW p (by simp)))]
      rw [blocksAux_script_go rest (fun js' hjs' => hJ js' (by simp [hjs']))
        (fun p' hp' => hW p' (by simp [hp'])) (p.status, p.id, p.name)
        ((format_pattern p).tail.reverse ++ [])]
      show _ = ((p.status, p.id, p.name),
          (format_pattern p).tail ++ scriptJunk rest) :: scriptBlocks rest
      simp

theorem scriptBlocks_key (s : List (List String ⊕ Pattern)) (now : String)
    (hJ : ∀ js, Sum.inl js ∈ s → ∀ l ∈ js, l ∈ sectionJunk)
    (hW : ∀ p, Sum.inr p ∈ s → wfPattern p) :
    ((scriptBlocks s).map (fun b => loadBlock b.1 b.2 now)).map patKey
      = (scriptPats s).map patKey := by
  induction s with
  | nil => rfl
  | cons item rest ih =>
    cases item with
    | inl js =>
      show ((scriptBlocks rest).map _).map _ = (scriptPats rest).map _
      exact ih (fun js' hjs' => hJ js' (by simp [hjs']))
        (fun p hp => hW p (by simp [hp]))
    | inr p =>
      show patKey (loadBlock (p.status, p.id, p.name)
          ((format_pattern p).tail ++ scriptJunk rest) now)
        :: ((scriptBlocks rest).map (fun b => loadBlock b.1 b.2 now)).map patKey
        = patKey p :: (scriptPats rest).map patKey
      rw [loadBlock_key p (scriptJunk rest) now (hW p (by simp))
        (scriptJunk_mem rest (fun js' hjs' => hJ js' (by simp [hjs'])))]
      rw [ih (fun js' hjs' => hJ js' (by simp [hjs']))
        (fun p' hp' => hW p' (by simp [hp']))]

/-- The saved document as a script: the section structure of
`_save_patterns` after its five preamble lines. -/
def saveScript (patterns : List Pattern) : List (List String ⊕ Pattern) :=
  let tracking := patterns.filter (fun p => p.status == PatternStatus.tracking)
  let ready := patterns.filter (fun p => p.status == PatternStatus.ready)
  let generalized := patterns.filter (fun p => p.status == PatternStatus.generalized)
  let dismissed := patterns.filter (fun p => p.status == PatternStatus.dismissed)
  Sum.inl ["## Ready for Generalization", ""] ::
  ((if ready = [] then [Sum.inl ["*No patterns ready for generalization*", ""]]
    else ready.map Sum.inr)
  ++ ([Sum.inl ["---", "", "## Tracking (count < threshold)", ""]]
  ++ ((if tracking = [] then [Sum.inl ["*No patterns currently tracking*", ""]]
      else tracking.map Sum.inr)
  ++ ([Sum.inl ["---", "", "## Generalized (Applied)", ""]]
  ++ ((if generalized = [] then [Sum.inl ["*No patterns generalized yet*", ""]]
      else generalized.map Sum.inr)
  ++ (if dismissed = [] then []
      else Sum.inl ["---", "", "## Dismissed", ""] :: dismissed.map Sum.inr))))))

theorem renderItem_inr :
    (renderItem ∘ Sum.inr : Pattern → List String) = format_pattern := by
  funext p
  rfl

theorem save_eq_script (P : List Pattern) (now : String) :
    save_patterns P now =
      ["# Aggregated Refinement Patterns", "",
       "> Auto-updated when pattern count >= " ++ natToDec GENERALIZATION_THRESHOLD,
       "> Last updated: " ++ now, ""] ++ renderScript (saveScript P) := by
  unfold save_patterns saveScript
  simp only [renderScript, List.map_cons, List.map_append, List.map_map,
    List.flatten_cons, List.flatten_append]
  split_ifs <;>
    simp [renderItem, renderItem_inr, List.append_assoc, List.flatten_cons]

theorem scriptPats_append (a b : List (List String ⊕ Pattern)) :
    scriptPats (a ++ b) = scriptPats a ++ scriptPats b := by
  induction a with
  | nil => rfl
  | cons i rest ih =>
    cases i with
    | inl js => simp [scriptPats, ih]
    | inr p => simp [scriptPats, ih]

theorem scriptPats_map_inr (ps : List Pattern) :
    scriptPats (ps.map Sum.inr) = ps := by
  induction ps with
  | nil => rfl
  | cons p rest ih => simp [scriptPats, ih]

theorem scriptPats_save (P : List Pattern) :
    scriptPats (saveScript P) =
      P.filter (fun p => p.status == PatternStatus.ready)
      ++ (P.filter (fun p => p.status == PatternStatus.tracking)
      ++ (P.filter (fun p => p.status == PatternStatus.generalized)
      ++ P.filter (fun p => p.status == PatternStatus.dismissed))) := by
  unfold saveScript
  dsimp only
  split_ifs <;>
    simp_all only [scriptPats, scriptPats_append, scriptPats_map_inr,
      List.append_eq, List.append_nil, List.nil_append, List.cons_append,
      List.singleton_append, List.append_assoc]

theorem inl_mem_section (js : List String) (c : Prop) [Decidable c]
    (A : List String ⊕ Pattern) (ps : List Pattern)
    (h : Sum.inl js ∈ (if c then [A] else ps.map Sum.inr)) : A = Sum.inl js := by
  split_ifs at h
  · exact (List.mem_singleton.mp h).symm
  · exfalso
    rcases List.mem_map.mp h with ⟨p, _, he⟩
    exact absurd he (by simp)

theorem inr_mem_section (p : Pattern) (c : Prop) [Decidable c]
    (A : List String ⊕ Pattern) (ps : List Pattern)
    (hA : ∀ q, A ≠ Sum.inr q)
    (h : Sum.inr p ∈ (if c then [A] else ps.map Sum.inr)) : p ∈ ps := by
  split_ifs at h
  · exact absurd (List.mem_singleton.mp h).symm (hA p)
  · rcases List.mem_map.mp h with ⟨q, hq, he⟩
    rw [← Sum.inr.inj he]
    exact hq

theorem saveScript_junk (P : List Pattern) :
    ∀ js, Sum.inl js ∈ saveScript P → ∀ l ∈ js, l ∈ sectionJunk := by
  intro js hm
  unfold saveScript at hm
  rcases List.mem_cons.mp hm with he | hm
  · rw [← Sum.inl.inj he.symm]
    decide
  · rcases List.mem_append.mp hm with hm | hm
    · have := inl_mem_section js _ _ _ hm
      rw [Sum.inl.inj this.symm]
      decide
    · rcases List.mem_append.mp hm with hm | hm
      · rw [← Sum.inl.inj (List.mem_singleton.mp hm).symm]
        decide
      · rcases List.mem_append.mp hm with hm | hm
        · have := inl_mem_section js _ _ _ hm
          rw [Sum.inl.inj this.symm]
          decide
        · rcases List.mem_append.mp hm with hm | hm
          · rw [← Sum.inl.inj (List.mem_singleton.mp hm).symm]
            decide
          · rcases List.mem_append.mp hm with hm | hm
            · have := inl_mem_section js _ _ _ hm
              rw [Sum.inl.inj this.symm]
              decide
            · split_ifs at hm
              · exact absurd hm (by simp)
              · rcases List.mem_cons.mp hm with he | hm
                · rw [← Sum.inl.inj he.symm]
                  decide
                · exfalso
                  rcases List.mem_map.mp hm with ⟨p, _, he⟩
                  exact absurd he (by simp)

theorem saveScript_wf (P : List Pattern) (hW : ∀ p ∈ P, wfPattern p) :
    ∀ p, Sum.inr p ∈ saveScript P → wfPattern p := by
  intro p hm
  unfold saveScript at hm
  rcases List.mem_cons.mp hm with he | hm
  · exact absurd he (by simp)
  · rcases List.mem_append.mp hm with hm | hm
    · exact hW p (List.mem_filter.mp
        (inr_mem_section p _ _ _ (by simp) hm)).1
    · rcases List.mem_append.mp hm with hm | hm
      · exact absurd (List.mem_singleton.mp hm) (by simp)
      · rcases List.mem_append.mp hm with hm | hm
        · exact hW p (List.mem_filter.mp
            (inr_mem_section p _ _ _ (by simp) hm)).1
        · rcases List.mem_append.mp hm with hm | hm
          · exact absurd (List.mem_singleton.mp hm) (by simp)
          · rcases List.mem_append.mp hm with hm | hm
            · exact hW p (List.mem_filter.mp
                (inr_mem_section p _ _ _ (by simp) hm)).1
            · split_ifs at hm
              · exact absurd hm (by simp)
              · rcases List.mem_cons.mp hm with he | hm
                · exact absurd he (by simp)
                · rcases List.mem_map.mp hm with ⟨q, hq, he⟩
                  rw [← Sum.inr.inj he]
                  exact hW q (List.mem_filter.mp hq).1

theorem filter_status_perm (P : List Pattern) :
    (P.filter (fun p => p.status == PatternStatus.ready)
      ++ (P.filter (fun p => p.status == PatternStatus.tracking)
      ++ (P.filter (fun p => p.status == PatternStatus.generalized)
      ++ P.filter (fun p => p.status == PatternStatus.dismissed)))).Perm P := by
  induction P with
  | nil => exact List.Perm.nil
  | cons p P' ih =>
    cases hst : p.status
    case tracking =>
      simp only [List.filter_cons, hst]
      rw [if_neg (by decide), if_pos (by decide), if_neg (by decide),
        if_neg (by decide)]
      exact List.perm_middle.trans (ih.cons p)
    case ready =>
      simp only [List.filter_cons, hst]
      rw [if_pos (by decide), if_neg (by decide), if_neg (by decide),
        if_neg (by decide)]
      exact ih.cons p
    case generalized =>
      simp only [List.filter_cons, hst]
      rw [if_neg (by decide), if_neg (by decide), if_pos (by decide),
        if_neg (by decide)]
      exact ((List.Perm.append_left _ List.perm_middle).trans
        List.perm_middle).trans (ih.cons p)
    case dismissed =>
      simp only [List.filter_cons, hst]
      rw [if_neg (by decide), if_neg (by decide), if_neg (by decide),
        if_pos (by decide)]
      exact (((List.Perm.append_left _ (List.Perm.append_left _ List.perm_middle)).trans
        (List.Perm.append_left _ List.perm_middle)).trans
        List.perm_middle).trans (ih.cons p)

instance (s : String) : Decidable (fieldOk s) := by
  unfold fieldOk
  infer_instance

instance (s : String) : Decidable (atomOk s) := by
  unfold atomOk
  infer_instance

instance (p : Pattern) : Decidable (wfPattern p) := by
  unfold wfPattern
  infer_instance

/-- C3 (amended): the raw claim fails (`save_load_cex` — comma-containing
refinement ids are split, and similar regex losses occur for fields
containing `**`, `#`, newlines, empty atoms or unstripped whitespace).
For *well-formed* patterns — `PATTERN-<digits>` ids, nonempty names,
fields free of `*`/`#`/newlines, and nonempty comma-free `strip`-fixed
refinement-id/project atoms — the round trip is semantically faithful:
loading a saved store returns, up to the saver's status-grouped
reordering, patterns with the same id, status, count, affected-skill set,
project set and refinement-id list. -/
theorem save_load_round_trip (P : List Pattern) (now now' : String)
    (hW : ∀ p ∈ P, wfPattern p) :
    semEq (load_patterns (save_patterns P now) now') P := by
  unfold semEq load_patterns
  rw [save_eq_script P now]
  rw [blocksAux_skip _ _ (by
    intro l hl
    simp only [List.mem_cons, List.mem_singleton] at hl
    rcases hl with rfl | rfl | rfl | rfl | (rfl | hnil)
    · decide
    · decide
    · decide
    · exact parseHeader_append_none "> Last updated: " now '>' rfl (by decide)
    · decide
    · exact absurd hnil (by simp))]
  rw [blocksAux_script (saveScript P) (saveScript_junk P) (saveScript_wf P hW)]
  rw [scriptBlocks_key (saveScript P) now' (saveScript_junk P) (saveScript_wf P hW)]
  rw [scriptPats_save P]
  exact (filter_status_perm P).map patKey

def wC3a : Pattern :=
  { id := "PATTERN-001", name := "alpha", description := "first pattern",
    affected_skills := ["skill-a", "skill-b"], refinement_ids := ["REF-1", "REF-2"],
    projects := ["proj-x"], count := 2, status := PatternStatus.ready,
    first_seen := "2026-01-01T00:00:00", last_seen := "2026-01-02T00:00:00" }

def wC3b : Pattern :=
  { id := "PATTERN-002", name := "beta", description := "second",
    affected_skills := [], refinement_ids := ["REF-3"], projects := [],
    count := 1, status := PatternStatus.tracking,
    first_seen := "2026-01-03T00:00:00", last_seen := "2026-01-03T00:00:00" }

theorem save_load_round_trip_witness :
    semEq (load_patterns (save_patterns [wC3a, wC3b] "T") "T") [wC3a, wC3b] :=
  save_load_round_trip [wC3a, wC3b] "T" "T" (by decide)

end SkillRefine
